import Mathlib

/-!
# appshell/client_app.cpp : value marshalling, callback registry, message routing

A shallow embedding of `src/appshell/client_app.cpp`.

* The embedding engine's value types (`CefV8Value`, `CefListValue`) are external
  to the repository; they are modelled as tagged unions with the accessor
  functions the source calls.  Reference-counted objects that the source mutates
  in place (`CefListValue`, a V8 array) are passed in and returned.
* The renderer-side state (`callback_map_`, `messageId`) together with the
  observable effects (messages handed to the outbound channel, the diagnostic
  stream, engine events) is one record, `Renderer`.
* A null-pointer dereference or a fatal assertion is the outcome `fault`.
-/

namespace AppShell

/-! ## Engine value types -/

/-- A `double` payload, carried as its 64-bit IEEE pattern; the source only copies doubles. -/
structure CefDouble where
  bits : Nat
  deriving DecidableEq, Repr

/-- The scripting engine's dynamic value (`CefV8Value`): one tag per value. -/
inductive CefV8Value where
  | undefined
  | null
  | bool (b : Bool)
  | int (i : Int)
  | double (d : CefDouble)
  | string (s : String)
  | array (elems : List CefV8Value)
  | function (handle : Nat)
  | object (handle : Nat)
  deriving Repr

/-- One slot of a `CefListValue`. -/
inductive CefValue where
  | null
  | bool (b : Bool)
  | int (i : Int)
  | double (d : CefDouble)
  | string (s : String)
  | binary (handle : Nat)
  | dictionary (handle : Nat)
  | list (slots : List CefValue)
  deriving Repr

/-- The process-portable typed list (`CefListValue`): an ordered, resizable sequence of slots. -/
abbrev CefListValue := List CefValue

/-- The enumeration `CefValueType`. -/
inductive CefValueType where
  | VTYPE_INVALID
  | VTYPE_NULL
  | VTYPE_BOOL
  | VTYPE_INT
  | VTYPE_DOUBLE
  | VTYPE_STRING
  | VTYPE_BINARY
  | VTYPE_DICTIONARY
  | VTYPE_LIST
  deriving DecidableEq, Repr

namespace CefV8Value

def IsArray : CefV8Value → Bool
  | array _ => true
  | _ => false

def IsString : CefV8Value → Bool
  | string _ => true
  | _ => false

def IsBool : CefV8Value → Bool
  | bool _ => true
  | _ => false

def IsInt : CefV8Value → Bool
  | int _ => true
  | _ => false

def IsDouble : CefV8Value → Bool
  | double _ => true
  | _ => false

def IsFunction : CefV8Value → Bool
  | function _ => true
  | _ => false

def GetStringValue : CefV8Value → String
  | string s => s
  | _ => ""

def GetBoolValue : CefV8Value → Bool
  | bool b => b
  | _ => false

def GetIntValue : CefV8Value → Int
  | int i => i
  | _ => 0

def GetDoubleValue : CefV8Value → CefDouble
  | double d => d
  | _ => ⟨0⟩

/-- The length of an array; 0 for a value that is not an array. -/
def GetArrayLength : CefV8Value → Nat
  | array elems => elems.length
  | _ => 0

/-- The element at an index of an array; `undefined` when there is none. -/
def GetValue : CefV8Value → Nat → CefV8Value
  | array elems, index => elems.getD index undefined
  | _, _ => undefined

def CreateNull : CefV8Value := null

def CreateBool (value : Bool) : CefV8Value := bool value

def CreateInt (value : Int) : CefV8Value := int value

def CreateDouble (value : CefDouble) : CefV8Value := double value

def CreateString (value : String) : CefV8Value := string value

/-- A new array of the given length, every element `undefined`. -/
def CreateArray (length : Nat) : CefV8Value := array (List.replicate length undefined)

/-- The indexed `SetValue(index, value)` on an array: stores the element, growing the
array (with `undefined`) when the index is at or past its length; no effect on a
value that is not an array. -/
def SetValue : CefV8Value → Nat → CefV8Value → CefV8Value
  | array elems, index, value =>
    if index < elems.length then array (elems.set index value)
    else array (elems ++ List.replicate (index - elems.length) undefined ++ [value])
  | target, _, _ => target

end CefV8Value

namespace CefValue

/-- The type tag of an occupied slot. -/
def GetType : CefValue → CefValueType
  | null => .VTYPE_NULL
  | bool _ => .VTYPE_BOOL
  | int _ => .VTYPE_INT
  | double _ => .VTYPE_DOUBLE
  | string _ => .VTYPE_STRING
  | binary _ => .VTYPE_BINARY
  | dictionary _ => .VTYPE_DICTIONARY
  | list _ => .VTYPE_LIST

end CefValue

namespace CefListValue

def Create : CefListValue := []

def GetSize (l : CefListValue) : Nat := l.length

/-- The call `SetSize(size)`: truncates, or pads with null slots. -/
def SetSize (l : CefListValue) (size : Nat) : CefListValue :=
  l.take size ++ List.replicate (size - l.length) CefValue.null

/-- The tag at an index; `VTYPE_INVALID` at or beyond the size. -/
def GetType (l : CefListValue) (index : Nat) : CefValueType :=
  match l[index]? with
  | some v => v.GetType
  | none => .VTYPE_INVALID

def GetBool (l : CefListValue) (index : Nat) : Bool :=
  match l[index]? with
  | some (.bool b) => b
  | _ => false

def GetInt (l : CefListValue) (index : Nat) : Int :=
  match l[index]? with
  | some (.int i) => i
  | _ => 0

def GetDouble (l : CefListValue) (index : Nat) : CefDouble :=
  match l[index]? with
  | some (.double d) => d
  | _ => ⟨0⟩

def GetString (l : CefListValue) (index : Nat) : String :=
  match l[index]? with
  | some (.string s) => s
  | _ => ""

/-- The nested list at an index (the source reads it only under tag `VTYPE_LIST`). -/
def GetList (l : CefListValue) (index : Nat) : CefListValue :=
  match l[index]? with
  | some (.list slots) => slots
  | _ => []

/-- Common part of the typed setters: stores a slot, padding with null slots when the
index is at or beyond the size. -/
def Set (l : CefListValue) (index : Nat) (v : CefValue) : CefListValue :=
  if index < l.length then l.set index v
  else l ++ List.replicate (index - l.length) CefValue.null ++ [v]

def SetList (l : CefListValue) (index : Nat) (value : CefListValue) : CefListValue :=
  Set l index (.list value)

def SetString (l : CefListValue) (index : Nat) (value : String) : CefListValue :=
  Set l index (.string value)

def SetBool (l : CefListValue) (index : Nat) (value : Bool) : CefListValue :=
  Set l index (.bool value)

def SetInt (l : CefListValue) (index : Nat) (value : Int) : CefListValue :=
  Set l index (.int value)

def SetDouble (l : CefListValue) (index : Nat) (value : CefDouble) : CefListValue :=
  Set l index (.double value)

end CefListValue

/-! ## Value converter, script value to list (source lines 22-53) -/

namespace V8ToList

mutual

/-- Transfer a V8 value to a List index (`SetListValue`, lines 23-38). -/
def SetListValue (list : CefListValue) (index : Nat) (value : CefV8Value) : CefListValue :=
  if value.IsArray then
    let new_list := CefListValue.Create
    let new_list := SetList value new_list
    list.SetList index new_list
  else if value.IsString then
    list.SetString index value.GetStringValue
  else if value.IsBool then
    list.SetBool index value.GetBoolValue
  else if value.IsInt then
    list.SetInt index value.GetIntValue
  else if value.IsDouble then
    list.SetDouble index value.GetDoubleValue
  else
    list
termination_by (sizeOf value, 2, 0)

/-- Transfer a V8 array to a List (`SetList`, lines 41-53).  `ASSERT(source->IsArray())`
holds at the one call in the file, which tests `IsArray` first; on a value that is not an
array `GetArrayLength` is 0 and the function returns. -/
def SetList (source : CefV8Value) (target : CefListValue) : CefListValue :=
  if source.GetArrayLength = 0 then
    target
  else
    SetList.loop source 0 (target.SetSize source.GetArrayLength)
termination_by (sizeOf source, 1, 0)

/-- The `for` loop of `SetList` (lines 51-52); `arg_length` is `source.GetArrayLength`. -/
def SetList.loop (source : CefV8Value) (i : Nat) (target : CefListValue) : CefListValue :=
  if h : i < source.GetArrayLength then
    SetList.loop source (i + 1) (SetListValue target i (source.GetValue i))
  else
    target
termination_by (sizeOf source, 0, source.GetArrayLength - i)
decreasing_by
  all_goals first
    | exact Prod.Lex.right _ (Prod.Lex.right _ (by omega))
    | (refine Prod.Lex.left _ _ ?_
       cases source with
       | array xs =>
         simp only [CefV8Value.GetArrayLength] at h
         simp only [CefV8Value.GetValue, List.getD_eq_getElem?_getD, List.getElem?_eq_getElem h,
           Option.getD_some]
         have := List.sizeOf_lt_of_mem (List.getElem_mem h)
         simp only [CefV8Value.array.sizeOf_spec]
         omega
       | _ => simp [CefV8Value.GetArrayLength] at h)

end

end V8ToList

/-! ## Value converter, list to script value (source lines 55-131) -/

namespace ListToV8

set_option linter.unusedVariables false in
mutual

/-- Transfer a List value to a V8 array index (`SetListValue`, lines 87-119);
`new_value` is a reference that stays null (`none`) in the `default` arm. -/
def SetListValue (list : CefV8Value) (index : Nat) (value : CefListValue) : CefV8Value :=
  let new_value : Option CefV8Value :=
    match h : value.GetType index with
    | .VTYPE_LIST =>
      let list := value.GetList index
      let new_value := CefV8Value.CreateArray list.GetSize
      some (SetList list new_value)
    | .VTYPE_BOOL => some (CefV8Value.CreateBool (value.GetBool index))
    | .VTYPE_DOUBLE => some (CefV8Value.CreateDouble (value.GetDouble index))
    | .VTYPE_INT => some (CefV8Value.CreateInt (value.GetInt index))
    | .VTYPE_STRING => some (CefV8Value.CreateString (value.GetString index))
    | _ => none
  match new_value with
  | some v => list.SetValue index v
  | none => list.SetValue index CefV8Value.CreateNull
termination_by (sizeOf value, 0, 0)
decreasing_by
  refine Prod.Lex.left _ _ ?_
  unfold CefListValue.GetType at h
  unfold CefListValue.GetList
  cases hv : value[index]? with
  | none => simp [hv] at h
  | some v =>
    have hlt := List.sizeOf_lt_of_mem (List.getElem?_mem hv)
    cases v <;> simp [hv, CefValue.GetType] at h ⊢
    simp only [CefValue.list.sizeOf_spec] at hlt
    omega

/-- Transfer a List to a V8 array (`SetList`, lines 122-131).  `ASSERT(target->IsArray())`
holds at both calls in the file, where the target is a fresh `CreateArray`. -/
def SetList (source : CefListValue) (target : CefV8Value) : CefV8Value :=
  let arg_length := source.GetSize
  if arg_length = 0 then
    target
  else
    SetList.loop source arg_length 0 target
termination_by (sizeOf source, 2, 0)

/-- The `for` loop of `SetList` (lines 129-130). -/
def SetList.loop (source : CefListValue) (arg_length : Nat) (i : Nat) (target : CefV8Value) :
    CefV8Value :=
  if i < arg_length then
    SetList.loop source arg_length (i + 1) (SetListValue target i source)
  else
    target
termination_by (sizeOf source, 1, arg_length - i)
decreasing_by
  all_goals first
    | exact Prod.Lex.right _ (Prod.Lex.left _ _ (by omega))
    | exact Prod.Lex.right _ (Prod.Lex.right _ (by omega))

end

/-- The function `ListValueToV8Value` (lines 55-84). -/
def ListValueToV8Value (value : CefListValue) (index : Nat) : CefV8Value :=
  match value.GetType index with
  | .VTYPE_LIST =>
    let list := value.GetList index
    let new_value := CefV8Value.CreateArray list.GetSize
    SetList list new_value
  | .VTYPE_BOOL => CefV8Value.CreateBool (value.GetBool index)
  | .VTYPE_DOUBLE => CefV8Value.CreateDouble (value.GetDouble index)
  | .VTYPE_INT => CefV8Value.CreateInt (value.GetInt index)
  | .VTYPE_STRING => CefV8Value.CreateString (value.GetString index)
  | _ => CefV8Value.CreateNull

end ListToV8

/-! ## Renderer state -/

/-- The enumeration `CefProcessId`. -/
inductive CefProcessId where
  | PID_BROWSER
  | PID_RENDERER
  deriving DecidableEq, Repr

/-- A process message: a name and one argument list. -/
structure CefProcessMessage where
  name : String
  args : CefListValue

namespace CefProcessMessage

def Create (name : String) : CefProcessMessage := ⟨name, CefListValue.Create⟩

def GetName (m : CefProcessMessage) : String := m.name

def GetArgumentList (m : CefProcessMessage) : CefListValue := m.args

end CefProcessMessage

/-- A script execution context; `browser` is what `GetBrowser()` returns (`none`: null). -/
structure CefV8Context where
  handle : Nat
  browser : Option Nat
  deriving DecidableEq, Repr

/-- The mapped type of `callback_map_`: a pair of references, either of which may be null. -/
abbrev CallbackEntry := Option CefV8Context × Option CefV8Value

/-- The container `callback_map_` (`std::map` from `int32` to `CallbackEntry`), as an
association list holding each key at most once. -/
abbrev CallbackMap := List (Int × CallbackEntry)

namespace CallbackMap

/-- The lookup `find(id)`. -/
def find (m : CallbackMap) (id : Int) : Option CallbackEntry :=
  match m with
  | [] => none
  | (k, e) :: rest => if k = id then some e else find rest id

/-- The call `erase(id)`. -/
def erase (m : CallbackMap) (id : Int) : CallbackMap :=
  match m with
  | [] => []
  | (k, e) :: rest => if k = id then erase rest id else (k, e) :: erase rest id

/-- The assignment `m[id] = e`. -/
def assign (m : CallbackMap) (id : Int) (e : CallbackEntry) : CallbackMap :=
  (id, e) :: erase m id

/-- The read `m[id]`: `operator[]` yields the entry, first inserting a default one (a
pair of null references) when the key is absent. -/
def index (m : CallbackMap) (id : Int) : CallbackEntry × CallbackMap :=
  match find m id with
  | some e => (e, m)
  | none => ((none, none), assign m id (none, none))

end CallbackMap

/-- A render delegate, as far as the router sees it: whether it reports a message handled. -/
structure RenderDelegate where
  OnProcessMessageRecieved : CefProcessMessage → Bool

/-- An engine-level event caused by the router. -/
inductive Event where
  | offer (delegate : Nat) (message : CefProcessMessage)
  | enter (context : CefV8Context)
  | executeFunction (function : CefV8Value) (arguments : List CefV8Value)
  | exit (context : CefV8Context)

/-- The renderer: the fields of `ClientApp` and `AppShellExtensionHandler` that the source
reads and writes, and the effects it has on its surroundings (oldest first). -/
structure Renderer where
  render_delegates_ : List RenderDelegate
  callback_map_ : CallbackMap
  messageId : Int
  sent : List (CefProcessId × CefProcessMessage)
  stderr : List String
  trace : List Event

/-- The state after construction: `messageId(0)`, nothing registered, nothing sent. -/
def Renderer.initial (delegates : List RenderDelegate) : Renderer :=
  ⟨delegates, [], 0, [], [], []⟩

/-- How a call ends: normally with a return value, or in a fatal assertion or null
dereference; either way with the state reached. -/
inductive Outcome (α : Type) where
  | ok (ret : α) (st : Renderer)
  | fault (st : Renderer)

/-- The value of an `int32` after arithmetic: two-complement wrap-around. -/
def wrapInt32 (x : Int) : Int := (x + 2 ^ 31) % 2 ^ 32 - 2 ^ 31

/-- Modelled from the spec: `ClientApp::AddCallback` is declared in `client_app.h`, which is
not among the sources; it is §4.2 `register(id, context, function)`, inserting a new entry
for `id`. -/
def AddCallback (st : Renderer) (id : Int) (context : CefV8Context)
    (callbackFunction : CefV8Value) : Renderer :=
  { st with callback_map_ := st.callback_map_.assign id (some context, some callbackFunction) }

/-! ## Extension call dispatcher (source lines 142-183) -/

namespace AppShellExtensionHandler

/-- The loop "pass the rest of the arguments" (lines 175-176). -/
def Execute.loop (arguments : List CefV8Value) (i : Nat) (messageArgs : CefListValue) :
    CefListValue :=
  if h : i < arguments.length then
    Execute.loop arguments (i + 1) (V8ToList.SetListValue messageArgs i arguments[i])
  else
    messageArgs
termination_by arguments.length - i

/-- The method `AppShellExtensionHandler::Execute` (lines 142-183).  `current` is
`CefV8Context::GetCurrentContext()` and `elapsed` what `client_app_->GetElapsedMilliseconds()`
returns.  The result is the returned `bool` and `retval` when it was assigned.  A current
context without a browser fails `ASSERT(browser.get())`: a fault. -/
def Execute (name : String) (arguments : List CefV8Value) (current : CefV8Context)
    (elapsed : CefDouble) (st : Renderer) : Outcome (Bool × Option CefV8Value) :=
  if name = "GetElapsedMilliseconds" then
    .ok (true, some (CefV8Value.CreateDouble elapsed)) st
  else
    match current.browser with
    | none => .fault st
    | some _ =>
      let message := CefProcessMessage.Create name
      let messageArgs := message.GetArgumentList
      if arguments.length > 0 ∧ (arguments.getD 0 .undefined).IsFunction = false then
        .ok (false, none)
          { st with stderr := st.stderr ++ ["Function called without callback param: " ++ name ++ "\n"] }
      else
        let r := if arguments.length > 0 then
            (AddCallback st st.messageId current (arguments.getD 0 .undefined),
              V8ToList.SetListValue messageArgs 0 (CefV8Value.CreateInt st.messageId))
          else
            (st, messageArgs)
        let st := r.1
        let messageArgs := Execute.loop arguments 1 r.2
        let st := { st with
          sent := st.sent ++ [(CefProcessId.PID_BROWSER, { message with args := messageArgs })] }
        .ok (true, none) { st with messageId := wrapInt32 (st.messageId + 1) }

end AppShellExtensionHandler

/-! ## Inbound message router (source lines 238-274) -/

namespace ClientApp

/-- The delegate loop (lines 247-250): `k` is the position of the iterator. -/
def OnProcessMessageRecieved.delegates (it : List RenderDelegate) (k : Nat)
    (message : CefProcessMessage) (handled : Bool) (trace : List Event) : Bool × List Event :=
  match it with
  | [] => (handled, trace)
  | d :: rest =>
    if handled = false then
      OnProcessMessageRecieved.delegates rest (k + 1) message
        (d.OnProcessMessageRecieved message) (trace ++ [Event.offer k message])
    else
      (handled, trace)

/-- The argument loop (lines 262-264). -/
def OnProcessMessageRecieved.loop (messageArgs : CefListValue) (i : Nat)
    (arguments : List CefV8Value) : List CefV8Value :=
  if i < messageArgs.GetSize then
    OnProcessMessageRecieved.loop messageArgs (i + 1)
      (arguments ++ [ListToV8.ListValueToV8Value messageArgs i])
  else
    arguments
termination_by messageArgs.GetSize - i

/-- The method `ClientApp::OnProcessMessageRecieved` (lines 238-274).  A message from
another process fails `ASSERT(source_process == PID_BROWSER)`: a fault.  `callback_map_[id]`
on an id that is not registered yields a pair of null references, and `context->Enter()`
or `callbackFunction->ExecuteFunction` through a null reference is a fault. -/
def OnProcessMessageRecieved (source_process : CefProcessId) (message : CefProcessMessage)
    (st : Renderer) : Outcome Bool :=
  if source_process ≠ CefProcessId.PID_BROWSER then
    .fault st
  else
    let r := OnProcessMessageRecieved.delegates st.render_delegates_ 0 message false st.trace
    let handled := r.1
    let st := { st with trace := r.2 }
    if handled = false then
      if message.GetName = "invokeCallback" then
        let messageArgs := message.GetArgumentList
        let callbackId := messageArgs.GetInt 0
        let found := st.callback_map_.index callbackId
        let st := { st with callback_map_ := found.2 }
        let context := found.1.1
        let callbackFunction := found.1.2
        match context with
        | none => .fault st
        | some ctx =>
          let st := { st with trace := st.trace ++ [Event.enter ctx] }
          let arguments := OnProcessMessageRecieved.loop messageArgs 1 []
          match callbackFunction with
          | none => .fault st
          | some f =>
            let st := { st with trace := st.trace ++ [Event.executeFunction f arguments] }
            let st := { st with trace := st.trace ++ [Event.exit ctx] }
            let st := { st with callback_map_ := st.callback_map_.erase callbackId }
            .ok handled st
      else
        .ok handled st
    else
      .ok handled st

end ClientApp

/-! ## Closed forms of the converters

Structurally recursive descriptions of what the two converters compute; the source
functions above are proved equal to them below, and the theorems about the source
functions are derived from that. -/

namespace V8ToList

mutual

/-- The slot a script value ends up as in a list whose slots start out null. -/
def toSlot : CefV8Value → CefValue
  | .array elems => .list (toSlots elems)
  | .string s => .string s
  | .bool b => .bool b
  | .int i => .int i
  | .double d => .double d
  | _ => .null

/-- The list an array's elements end up as. -/
def toSlots : List CefV8Value → List CefValue
  | [] => []
  | x :: rest => toSlot x :: toSlots rest

end

/-- Whether `SetListValue` has a branch for the value's type. -/
def supported (v : CefV8Value) : Bool :=
  v.IsArray || v.IsString || v.IsBool || v.IsInt || v.IsDouble

/-- The content of a slot after `SetListValue` stored `v` in it. -/
def store (old : CefValue) (v : CefV8Value) : CefValue :=
  if supported v then toSlot v else old

end V8ToList

namespace ListToV8

mutual

/-- The script value a list slot is converted to. -/
def ofSlot : CefValue → CefV8Value
  | .list slots => .array (ofSlots slots)
  | .bool b => .bool b
  | .double d => .double d
  | .int i => .int i
  | .string s => .string s
  | _ => .null

/-- The array elements a list's slots are converted to. -/
def ofSlots : List CefValue → List CefV8Value
  | [] => []
  | s :: rest => ofSlot s :: ofSlots rest

end

end ListToV8

mutual

/-- Whether a script value is a bool, int, double or string, or an array of such values
and arrays of them, to any depth. -/
def CefV8Value.onlySupported : CefV8Value → Bool
  | .array elems => CefV8Value.onlySupportedAll elems
  | .bool _ => true
  | .int _ => true
  | .double _ => true
  | .string _ => true
  | _ => false

/-- Whether every value of a list is `onlySupported`. -/
def CefV8Value.onlySupportedAll : List CefV8Value → Bool
  | [] => true
  | x :: rest => CefV8Value.onlySupported x && CefV8Value.onlySupportedAll rest

end

namespace V8ToList

/-- The effect of `SetListValue` on a list, in closed form. -/
def Spec (v : CefV8Value) : Prop :=
  ∀ (list : CefListValue) (index : Nat),
    SetListValue list index v = if supported v then list.Set index (toSlot v) else list

end V8ToList

namespace ListToV8

/-- The script value for the slot at an index: null where there is no slot. -/
def ofSlotAt (value : CefListValue) (index : Nat) : CefV8Value :=
  match value[index]? with
  | some s => ofSlot s
  | none => .null

/-- The effect of `SetList` on the nested list of a slot, in closed form. -/
def Spec (s : CefValue) : Prop :=
  ∀ slots, s = .list slots →
    SetList slots (CefV8Value.CreateArray (CefListValue.GetSize slots)) = .array (ofSlots slots)

end ListToV8

/-! ## Observations on outcomes and traces -/

/-- The state a call ended in. -/
def Outcome.state {α : Type} : Outcome α → Renderer
  | .ok _ st => st
  | .fault st => st

/-- Whether an event is the offer of a message to a delegate. -/
def Event.isOffer : Event → Bool
  | .offer _ _ => true
  | _ => false

/-- The offers of a message to the first `n` delegates, in order. -/
def offers (message : CefProcessMessage) (n : Nat) : List Event :=
  (List.range n).map (fun k => Event.offer k message)

/-- Whether a delegate reports the message handled. -/
def handles (message : CefProcessMessage) (d : RenderDelegate) : Bool :=
  d.OnProcessMessageRecieved message

/-- How many delegates the message is offered to: all of them up to and including the
first that reports it handled. -/
def offeredCount (delegates : List RenderDelegate) (message : CefProcessMessage) : Nat :=
  min (delegates.findIdx (handles message) + 1) delegates.length

/-! ## Runs of the renderer -/

/-- One entry point being called from outside. -/
inductive Action where
  | execute (name : String) (arguments : List CefV8Value) (current : CefV8Context)
      (elapsed : CefDouble)
  | receive (source_process : CefProcessId) (message : CefProcessMessage)

/-- The state after an action; `none` when the call ends in a fault. -/
def step (a : Action) (st : Renderer) : Option Renderer :=
  match a with
  | .execute name arguments current elapsed =>
    match AppShellExtensionHandler.Execute name arguments current elapsed st with
    | .ok _ st1 => some st1
    | .fault _ => none
  | .receive source_process message =>
    match ClientApp.OnProcessMessageRecieved source_process message st with
    | .ok _ st1 => some st1
    | .fault _ => none

/-- The state after a sequence of actions, none of which faults. -/
def run (actions : List Action) (st : Renderer) : Option Renderer :=
  match actions with
  | [] => some st
  | a :: rest =>
    match step a st with
    | some st1 => run rest st1
    | none => none

/-- The ids in slot 0 of the messages handed to the outbound channel, oldest first. -/
def allocatedIds (sent : List (CefProcessId × CefProcessMessage)) : List Int :=
  sent.filterMap (fun p =>
    match (p.2.args[0]? : Option CefValue) with
    | some (CefValue.int id) => some id
    | _ => none)

/-- Whether an action is a call of `Execute` that reaches `messageId++`: its name is not
the reserved one and it is not rejected for a first argument that is no function. -/
def Action.advances : Action → Bool
  | .execute name arguments _ _ =>
    decide (name ≠ "GetElapsedMilliseconds") &&
      !(decide (arguments.length > 0) && !(arguments.getD 0 .undefined).IsFunction)
  | .receive _ _ => false

/-- How many of the actions reach `messageId++`. -/
def dispatches (actions : List Action) : Nat :=
  (actions.filter Action.advances).length

/-- A delegate that reports no message handled. -/
def declining : RenderDelegate := ⟨fun _ => false⟩

/-- A delegate that reports every message handled. -/
def claiming : RenderDelegate := ⟨fun _ => true⟩

/-! ## Notions for unsupported values, entry lifetime and context pairing -/

mutual

/-- A script value with every element that is neither a bool, int, double or string nor an
array replaced by null, at every depth; arrays keep their length and nesting. -/
def CefV8Value.nullified : CefV8Value → CefV8Value
  | .array elems => .array (CefV8Value.nullifiedAll elems)
  | .bool b => .bool b
  | .int i => .int i
  | .double d => .double d
  | .string s => .string s
  | _ => .null

/-- The values of a list, each `nullified`. -/
def CefV8Value.nullifiedAll : List CefV8Value → List CefV8Value
  | [] => []
  | x :: rest => CefV8Value.nullified x :: CefV8Value.nullifiedAll rest

end

/-- A script array converted into a fresh list with `SetList` (script value to list) and
that list converted back with `CreateArray(size)` and `SetList` (list to script value). -/
def listAndBack (v : CefV8Value) : CefV8Value :=
  ListToV8.SetList (V8ToList.SetList v CefListValue.Create)
    (CefV8Value.CreateArray (V8ToList.SetList v CefListValue.Create).GetSize)

/-- Whether an event is a context being entered. -/
def Event.isEnter : Event → Bool
  | .enter _ => true
  | _ => false

/-- Whether an event is a context being exited. -/
def Event.isExit : Event → Bool
  | .exit _ => true
  | _ => false

/-- How many contexts a trace enters. -/
def enters (trace : List Event) : Nat := (trace.filter Event.isEnter).length

/-- How many contexts a trace exits. -/
def exits (trace : List Event) : Nat := (trace.filter Event.isExit).length

/-- The depth of the engine's current-context stack after a trace, relative to its start. -/
def contextDepth (trace : List Event) : Int := (enters trace : Int) - (exits trace : Int)

/-- Every entry of the registry holds a context and a function, none a null reference. -/
def RegistryComplete (st : Renderer) : Prop :=
  ∀ k e, st.callback_map_.find k = some e → ∃ c f, e = (some c, some f)

/-! ## Notions for the ids of a run of any length and for re-registration -/

/-- What holds of the id counter, the ids sent and the registry after `n` calls reached
`messageId++`, whatever `n` is: the counter is `n` wrapped to `int32`, the ids sent are the
wrapped values of an increasing sequence of numbers below `n`, and so is every key. -/
def IdTrace (n : Nat) (st : Renderer) : Prop :=
  st.messageId = wrapInt32 n ∧
  (∃ js : List Nat, allocatedIds st.sent = js.map (fun j : Nat => wrapInt32 (j : Int)) ∧
    js.Pairwise (· < ·) ∧ ∀ j ∈ js, j < n) ∧
  (∀ k e, st.callback_map_.find k = some e → ∃ j : Nat, j < n ∧ k = wrapInt32 (j : Int))

/-- One call the router makes on the engine: an event of the trace, or a call of
`ListValueToV8Value` on an argument slot, with the script value it creates. -/
inductive Call where
  | event (e : Event)
  | convert (index : Nat) (value : CefV8Value)

namespace ClientApp

/-- The delegate loop (lines 247-250), recording the offers as calls as well. -/
def OnProcessMessageRecieved.delegatesCalls (it : List RenderDelegate) (k : Nat)
    (message : CefProcessMessage) (handled : Bool) (trace : List Event) (calls : List Call) :
    Bool × List Event × List Call :=
  match it with
  | [] => (handled, trace, calls)
  | d :: rest =>
    if handled = false then
      OnProcessMessageRecieved.delegatesCalls rest (k + 1) message
        (d.OnProcessMessageRecieved message) (trace ++ [Event.offer k message])
        (calls ++ [Call.event (Event.offer k message)])
    else
      (handled, trace, calls)

/-- The argument loop (lines 262-264), recording each call of `ListValueToV8Value`. -/
def OnProcessMessageRecieved.loopCalls (messageArgs : CefListValue) (i : Nat)
    (arguments : List CefV8Value) (calls : List Call) : List CefV8Value × List Call :=
  if i < messageArgs.GetSize then
    OnProcessMessageRecieved.loopCalls messageArgs (i + 1)
      (arguments ++ [ListToV8.ListValueToV8Value messageArgs i])
      (calls ++ [Call.convert i (ListToV8.ListValueToV8Value messageArgs i)])
  else
    (arguments, calls)
termination_by messageArgs.GetSize - i

/-- The method `ClientApp::OnProcessMessageRecieved` (lines 238-274) with the calls it
makes on the engine, in the order of the source: the delegate loop, `context->Enter()`
(line 260), the conversions of the argument loop (lines 262-264), `ExecuteFunction`
(line 266), `context->Exit()` (line 267). -/
def OnProcessMessageRecievedCalls (source_process : CefProcessId) (message : CefProcessMessage)
    (st : Renderer) : Outcome Bool × List Call :=
  if source_process ≠ CefProcessId.PID_BROWSER then
    (.fault st, [])
  else
    let r := OnProcessMessageRecieved.delegatesCalls st.render_delegates_ 0 message false
      st.trace []
    let handled := r.1
    let st := { st with trace := r.2.1 }
    let calls := r.2.2
    if handled = false then
      if message.GetName = "invokeCallback" then
        let messageArgs := message.GetArgumentList
        let callbackId := messageArgs.GetInt 0
        let found := st.callback_map_.index callbackId
        let st := { st with callback_map_ := found.2 }
        let context := found.1.1
        let callbackFunction := found.1.2
        match context with
        | none => (.fault st, calls)
        | some ctx =>
          let st := { st with trace := st.trace ++ [Event.enter ctx] }
          let calls := calls ++ [Call.event (Event.enter ctx)]
          let converted := OnProcessMessageRecieved.loopCalls messageArgs 1 [] calls
          let arguments := converted.1
          let calls := converted.2
          match callbackFunction with
          | none => (.fault st, calls)
          | some f =>
            let st := { st with trace := st.trace ++ [Event.executeFunction f arguments] }
            let calls := calls ++ [Call.event (Event.executeFunction f arguments)]
            let st := { st with trace := st.trace ++ [Event.exit ctx] }
            let calls := calls ++ [Call.event (Event.exit ctx)]
            let st := { st with callback_map_ := st.callback_map_.erase callbackId }
            (.ok handled st, calls)
      else
        (.ok handled st, calls)
    else
      (.ok handled st, calls)

end ClientApp

/-! ## Structural induction on values -/

theorem CefV8Value.v8_induct {P : CefV8Value → Prop}
    (harr : ∀ elems, (∀ x ∈ elems, P x) → P (.array elems))
    (hleaf : ∀ v, v.IsArray = false → P v) : ∀ v, P v := by
  intro v
  generalize hn : sizeOf v = n
  induction n using Nat.strong_induction_on generalizing v with
  | _ n ih =>
    cases v with
    | array elems =>
      apply harr
      intro x hx
      have := List.sizeOf_lt_of_mem hx
      exact ih (sizeOf x) (by subst hn; simp only [CefV8Value.array.sizeOf_spec]; omega) x rfl
    | _ => exact hleaf _ rfl

theorem CefValue.slot_induct {P : CefValue → Prop}
    (hlist : ∀ slots, (∀ x ∈ slots, P x) → P (.list slots))
    (hleaf : ∀ v, v.GetType ≠ .VTYPE_LIST → P v) : ∀ v, P v := by
  intro v
  generalize hn : sizeOf v = n
  induction n using Nat.strong_induction_on generalizing v with
  | _ n ih =>
    cases v with
    | list slots =>
      apply hlist
      intro x hx
      have := List.sizeOf_lt_of_mem hx
      exact ih (sizeOf x) (by subst hn; simp only [CefValue.list.sizeOf_spec]; omega) x rfl
    | _ => exact hleaf _ (by simp [CefValue.GetType])

namespace CefListValue

theorem Set_getElem?_self (l : CefListValue) (i : Nat) (v : CefValue) :
    (Set l i v)[i]? = some v := by
  unfold Set
  split
  · next h => simp [h]
  · next h =>
    have : (l ++ List.replicate (i - l.length) CefValue.null).length = i := by
      simp; omega
    rw [List.getElem?_append_right (by omega)]
    simp [this]

theorem Set_getElem?_of_lt (l : CefListValue) (i j : Nat) (v : CefValue) (h : j < i) :
    (Set l i v)[j]? = some (l.getD j CefValue.null) := by
  unfold Set
  split
  · next hi =>
    rw [List.getElem?_set_ne (by omega)]
    simp [List.getD_eq_getElem?_getD, List.getElem?_eq_getElem (show j < l.length by omega)]
  · next hi =>
    rw [List.getElem?_append_left (by simp; omega)]
    by_cases hj : j < l.length
    · rw [List.getElem?_append_left hj]
      simp [List.getD_eq_getElem?_getD, List.getElem?_eq_getElem hj]
    · rw [List.getElem?_append_right (by omega)]
      simp [List.getD_eq_getElem?_getD, List.getElem?_eq_none (show l.length ≤ j by omega),
        List.getElem?_replicate]
      omega

theorem Set_length (l : CefListValue) (i : Nat) (v : CefValue) :
    (Set l i v).length = max l.length (i + 1) := by
  unfold Set
  split <;> simp <;> omega

end CefListValue

namespace V8ToList

theorem toSlots_eq_map (xs : List CefV8Value) : toSlots xs = xs.map toSlot := by
  induction xs with
  | nil => simp [toSlots]
  | cons x rest ih => simp [toSlots, ih]

theorem store_null (v : CefV8Value) : store .null v = toSlot v := by
  cases v <;> simp [store, supported, toSlot, CefV8Value.IsArray, CefV8Value.IsString,
    CefV8Value.IsBool, CefV8Value.IsInt, CefV8Value.IsDouble]

theorem Set_append_length (pre post : CefListValue) (p v : CefValue) (i : Nat)
    (hi : pre.length = i) :
    CefListValue.Set (pre ++ p :: post) i v = pre ++ v :: post := by
  subst hi
  simp [CefListValue.Set]

theorem loop_array (xpost : List CefV8Value) :
    ∀ (xpre : List CefV8Value) (pre post : CefListValue),
      (∀ x ∈ xpre ++ xpost, Spec x) → pre.length = xpre.length → post.length = xpost.length →
      SetList.loop (.array (xpre ++ xpost)) xpre.length (pre ++ post)
        = pre ++ List.zipWith store post xpost := by
  induction xpost with
  | nil =>
    intro xpre pre post _ _ hpost
    rw [SetList.loop]
    simp only [CefV8Value.GetArrayLength, List.append_nil, lt_self_iff_false, ↓reduceDIte]
    simp [List.length_eq_zero.mp hpost]
  | cons x xr ih =>
    intro xpre pre post hspec hpre hpost
    match post, hpost with
    | p :: pr, hpost =>
      rw [SetList.loop]
      have hi : xpre.length < (CefV8Value.array (xpre ++ x :: xr)).GetArrayLength := by
        simp [CefV8Value.GetArrayLength]
      have hx : (CefV8Value.array (xpre ++ x :: xr)).GetValue xpre.length = x := by
        simp [CefV8Value.GetValue, List.getD_eq_getElem?_getD,
          List.getElem?_append_right (Nat.le_refl _)]
      simp only [hi, ↓reduceDIte, hx]
      have hstep : SetListValue (pre ++ p :: pr) xpre.length x = (pre ++ [store p x]) ++ pr := by
        rw [hspec x (by simp)]
        by_cases hs : supported x = true
        · simp only [hs, ↓reduceIte, store]
          rw [Set_append_length _ _ _ _ _ hpre]
          simp
        · simp [hs, store]
      rw [hstep]
      have h1 : xpre ++ x :: xr = (xpre ++ [x]) ++ xr := by simp
      have h2 : xpre.length + 1 = (xpre ++ [x]).length := by simp
      rw [h1, h2, ih (xpre ++ [x]) (pre ++ [store p x]) pr (by rw [← h1]; exact hspec)
        (by simp [hpre]) (by simpa using hpost)]
      simp

theorem SetList_array (xs : List CefV8Value) (hxs : ∀ x ∈ xs, Spec x) :
    SetList (.array xs) CefListValue.Create = toSlots xs := by
  rw [SetList]
  by_cases h0 : xs.length = 0
  · have : xs = [] := List.length_eq_zero.mp h0
    subst this
    simp [CefV8Value.GetArrayLength, toSlots, CefListValue.Create]
  · simp only [CefV8Value.GetArrayLength, h0, ↓reduceIte]
    have := loop_array xs [] [] (CefListValue.SetSize CefListValue.Create xs.length)
      (by simpa using hxs) rfl (by simp [CefListValue.SetSize, CefListValue.Create])
    simp only [List.nil_append, List.length_nil] at this
    rw [this, toSlots_eq_map]
    simp only [CefListValue.SetSize, CefListValue.Create, List.take_nil, List.length_nil,
      Nat.sub_zero, List.nil_append]
    apply List.ext_getElem?
    intro i
    simp only [List.getElem?_zipWith, List.getElem?_map, List.getElem?_replicate]
    by_cases hi : i < xs.length
    · simp [hi, List.getElem?_eq_getElem hi, store_null]
    · simp [hi, List.getElem?_eq_none (show xs.length ≤ i by omega)]

theorem SetListValue_spec : ∀ v, Spec v := by
  apply CefV8Value.v8_induct
  · intro elems ih list index
    rw [SetListValue]
    simp only [CefV8Value.IsArray, ↓reduceIte, supported, Bool.true_or, CefListValue.SetList,
      SetList_array elems ih, toSlot]
  · intro v hv list index
    rw [SetListValue]
    cases v <;> simp [CefV8Value.IsArray] at hv <;>
      simp [supported, toSlot, CefV8Value.IsArray, CefV8Value.IsString,
        CefV8Value.IsBool, CefV8Value.IsInt, CefV8Value.IsDouble, CefListValue.SetString,
        CefListValue.SetBool, CefListValue.SetInt, CefListValue.SetDouble,
        CefV8Value.GetStringValue, CefV8Value.GetBoolValue, CefV8Value.GetIntValue,
        CefV8Value.GetDoubleValue]

end V8ToList

namespace ListToV8

theorem ofSlots_eq_map (xs : List CefValue) : ofSlots xs = xs.map ofSlot := by
  induction xs with
  | nil => simp [ofSlots]
  | cons x rest ih => simp [ofSlots, ih]

theorem SetListValue_unfold (list : CefV8Value) (index : Nat) (value : CefListValue) :
    SetListValue list index value = list.SetValue index
      (match value.GetType index with
       | .VTYPE_LIST =>
         SetList (value.GetList index) (CefV8Value.CreateArray (value.GetList index).GetSize)
       | .VTYPE_BOOL => CefV8Value.CreateBool (value.GetBool index)
       | .VTYPE_DOUBLE => CefV8Value.CreateDouble (value.GetDouble index)
       | .VTYPE_INT => CefV8Value.CreateInt (value.GetInt index)
       | .VTYPE_STRING => CefV8Value.CreateString (value.GetString index)
       | _ => CefV8Value.CreateNull) := by
  rw [SetListValue]
  cases hT : value.GetType index <;> simp only [hT]

theorem SetListValue_of (source : CefListValue) (hs : ∀ s ∈ source, Spec s)
    (target : CefV8Value) (i : Nat) :
    SetListValue target i source = target.SetValue i (ofSlotAt source i) := by
  rw [SetListValue_unfold]
  unfold ofSlotAt
  cases hv : source[i]? with
  | none => simp [CefListValue.GetType, hv, CefV8Value.CreateNull]
  | some s =>
    have hm : s ∈ source := List.getElem?_mem hv
    cases s with
    | list slots =>
      have := hs _ hm slots rfl
      simp [CefListValue.GetType, hv, CefValue.GetType, CefListValue.GetList, this, ofSlot]
    | _ =>
      simp [CefListValue.GetType, hv, CefValue.GetType, ofSlot, CefV8Value.CreateNull,
        CefV8Value.CreateBool, CefV8Value.CreateInt, CefV8Value.CreateDouble,
        CefV8Value.CreateString, CefListValue.GetBool, CefListValue.GetInt,
        CefListValue.GetDouble, CefListValue.GetString]

theorem SetValue_append_length (pre post : List CefV8Value) (p v : CefV8Value) (i : Nat)
    (hi : pre.length = i) :
    (CefV8Value.array (pre ++ p :: post)).SetValue i v = .array (pre ++ v :: post) := by
  subst hi
  simp [CefV8Value.SetValue]

theorem loop_list (spost : List CefValue) :
    ∀ (spre : List CefValue) (pre post : List CefV8Value),
      (∀ s ∈ spre ++ spost, Spec s) → pre.length = spre.length → post.length = spost.length →
      SetList.loop (spre ++ spost) (spre ++ spost).length spre.length (.array (pre ++ post))
        = .array (pre ++ spost.map ofSlot) := by
  induction spost with
  | nil =>
    intro spre pre post _ _ hpost
    rw [SetList.loop]
    simp [List.length_eq_zero.mp hpost]
  | cons s sr ih =>
    intro spre pre post hspec hpre hpost
    match post, hpost with
    | p :: pr, hpost =>
      rw [SetList.loop]
      have hi : spre.length < (spre ++ s :: sr).length := by simp
      simp only [hi, ↓reduceIte]
      rw [SetListValue_of _ hspec, SetValue_append_length _ _ _ _ _ hpre]
      have hat : ofSlotAt (spre ++ s :: sr) spre.length = ofSlot s := by
        simp [ofSlotAt, List.getElem?_append_right (Nat.le_refl _)]
      have h1 : spre ++ s :: sr = (spre ++ [s]) ++ sr := by simp
      have h2 : spre.length + 1 = (spre ++ [s]).length := by simp
      have h3 : pre ++ ofSlot s :: pr = (pre ++ [ofSlot s]) ++ pr := by simp
      rw [hat, h3]
      have := ih (spre ++ [s]) (pre ++ [ofSlot s]) pr (by rw [← h1]; exact hspec)
        (by simp [hpre]) (by simpa using hpost)
      rw [← h1, ← h2] at this
      rw [this]
      simp

theorem SetList_of (source : CefListValue) (hs : ∀ s ∈ source, Spec s) :
    SetList source (CefV8Value.CreateArray source.GetSize) = .array (ofSlots source) := by
  rw [SetList]
  by_cases h0 : source.length = 0
  · have : source = [] := List.length_eq_zero.mp h0
    subst this
    simp [CefListValue.GetSize, CefV8Value.CreateArray, ofSlots]
  · simp only [CefListValue.GetSize, h0, ↓reduceIte, CefV8Value.CreateArray]
    have := loop_list source [] [] (List.replicate source.length .undefined)
      (by simpa using hs) rfl (by simp)
    simp only [List.nil_append, List.length_nil] at this
    rw [this, ofSlots_eq_map]

theorem spec_all : ∀ s, Spec s := by
  apply CefValue.slot_induct
  · intro slots ih l hl
    cases hl
    exact SetList_of slots ih
  · intro v hv l hl
    subst hl
    simp [CefValue.GetType] at hv

theorem SetList_eq_ofSlots (source : CefListValue) :
    SetList source (CefV8Value.CreateArray source.GetSize) = .array (ofSlots source) :=
  SetList_of source (fun s _ => spec_all s)

theorem SetListValue_eq (target : CefV8Value) (i : Nat) (source : CefListValue) :
    SetListValue target i source = target.SetValue i (ofSlotAt source i) :=
  SetListValue_of source (fun s _ => spec_all s) target i

theorem ListValueToV8Value_eq (value : CefListValue) (index : Nat) :
    ListValueToV8Value value index = ofSlotAt value index := by
  unfold ListValueToV8Value ofSlotAt
  cases hv : value[index]? with
  | none => simp [CefListValue.GetType, hv, CefV8Value.CreateNull]
  | some s =>
    cases s with
    | list slots =>
      simp [CefListValue.GetType, hv, CefValue.GetType, CefListValue.GetList, SetList_eq_ofSlots, ofSlot]
    | _ =>
      simp [CefListValue.GetType, hv, CefValue.GetType, ofSlot, CefV8Value.CreateNull,
        CefV8Value.CreateBool, CefV8Value.CreateInt, CefV8Value.CreateDouble,
        CefV8Value.CreateString, CefListValue.GetBool, CefListValue.GetInt,
        CefListValue.GetDouble, CefListValue.GetString]

end ListToV8

theorem V8ToList.SetList_fresh (elems : List CefV8Value) :
    V8ToList.SetList (.array elems) CefListValue.Create = V8ToList.toSlots elems :=
  V8ToList.SetList_array elems (fun x _ => V8ToList.SetListValue_spec x)

theorem ListToV8.ofSlots_toSlots (elems : List CefV8Value)
    (ih : ∀ x ∈ elems, x.onlySupported = true → ListToV8.ofSlot (V8ToList.toSlot x) = x)
    (h : CefV8Value.onlySupportedAll elems = true) :
    ListToV8.ofSlots (V8ToList.toSlots elems) = elems := by
  induction elems with
  | nil => simp [V8ToList.toSlots, ListToV8.ofSlots]
  | cons x rest ihr =>
    simp only [CefV8Value.onlySupportedAll, Bool.and_eq_true] at h
    simp only [V8ToList.toSlots, ListToV8.ofSlots]
    rw [ih x (by simp) h.1, ihr (fun y hy => ih y (by simp [hy])) h.2]

theorem ListToV8.ofSlot_toSlot : ∀ v : CefV8Value, v.onlySupported = true →
    ListToV8.ofSlot (V8ToList.toSlot v) = v := by
  apply CefV8Value.v8_induct
  · intro elems ih h
    simp only [V8ToList.toSlot, ListToV8.ofSlot, CefV8Value.array.injEq]
    simp only [CefV8Value.onlySupported] at h
    exact ListToV8.ofSlots_toSlots elems ih h
  · intro v hv h
    cases v <;> simp [CefV8Value.onlySupported, CefV8Value.IsArray] at h hv <;>
      simp [V8ToList.toSlot, ListToV8.ofSlot]

/-- C1. Round trip of the value converter: for an array whose leaves are only bool, int,
double or string values (nested arrays, empty ones included), converting it into a fresh
list with `SetList` (script value to list) and converting that list back with
`CreateArray(size)` and `SetList` (list to script value) yields the array itself. -/
theorem C1_round_trip (elems : List CefV8Value)
    (h : (CefV8Value.array elems).onlySupported = true) :
    ListToV8.SetList (V8ToList.SetList (.array elems) CefListValue.Create)
        (CefV8Value.CreateArray
          (V8ToList.SetList (.array elems) CefListValue.Create).GetSize)
      = .array elems := by
  rw [ListToV8.SetList_eq_ofSlots, V8ToList.SetList_fresh]
  have := ListToV8.ofSlot_toSlot (.array elems) h
  simpa [V8ToList.toSlot, ListToV8.ofSlot] using this

theorem C1_round_trip_witness :
    (CefV8Value.array [.int 1, .array [], .array [.string "a", .bool true, .double ⟨5⟩]]).onlySupported
        = true ∧
      ListToV8.SetList
        (V8ToList.SetList
          (.array [.int 1, .array [], .array [.string "a", .bool true, .double ⟨5⟩]])
          CefListValue.Create)
        (CefV8Value.CreateArray
          (V8ToList.SetList
            (.array [.int 1, .array [], .array [.string "a", .bool true, .double ⟨5⟩]])
            CefListValue.Create).GetSize)
      = .array [.int 1, .array [], .array [.string "a", .bool true, .double ⟨5⟩]] :=
  ⟨by decide, C1_round_trip _ (by decide)⟩

/-- C9. `SetList` (script value to list) into a fresh list is size- and tag-preserving:
the list gets the array's length, and slot `i` holds the same bool, int, double or string
as element `i`, or the nested list that is the conversion of element `i` (of that array's
length), or stays null when element `i` has any other type. -/
theorem C9_SetList_size_and_tags (elems : List CefV8Value) :
    (V8ToList.SetList (.array elems) CefListValue.Create).GetSize = elems.length ∧
    ∀ i, i < elems.length →
      match (CefV8Value.array elems).GetValue i with
      | .bool b =>
        (V8ToList.SetList (.array elems) CefListValue.Create)[i]? = some (.bool b)
      | .int n =>
        (V8ToList.SetList (.array elems) CefListValue.Create)[i]? = some (.int n)
      | .double d =>
        (V8ToList.SetList (.array elems) CefListValue.Create)[i]? = some (.double d)
      | .string s =>
        (V8ToList.SetList (.array elems) CefListValue.Create)[i]? = some (.string s)
      | .array sub =>
        (V8ToList.SetList (.array elems) CefListValue.Create)[i]?
            = some (.list (V8ToList.SetList (.array sub) CefListValue.Create)) ∧
          (V8ToList.SetList (.array sub) CefListValue.Create).GetSize = sub.length
      | _ =>
        (V8ToList.SetList (.array elems) CefListValue.Create)[i]? = some .null := by
  have hlen : ∀ xs : List CefV8Value, (V8ToList.toSlots xs).length = xs.length := by
    intro xs; simp [V8ToList.toSlots_eq_map]
  refine ⟨by simp [V8ToList.SetList_fresh, CefListValue.GetSize, hlen], ?_⟩
  intro i hi
  have hget : (V8ToList.SetList (.array elems) CefListValue.Create)[i]?
      = some (V8ToList.toSlot elems[i]) := by
    simp [V8ToList.SetList_fresh, V8ToList.toSlots_eq_map, List.getElem?_eq_getElem hi]
  have hval : (CefV8Value.array elems).GetValue i = elems[i] := by
    simp [CefV8Value.GetValue, List.getD_eq_getElem?_getD, List.getElem?_eq_getElem hi]
  rw [hval, hget]
  cases elems[i] <;> simp [V8ToList.toSlot, V8ToList.SetList_fresh, CefListValue.GetSize, hlen]

theorem C9_SetList_size_and_tags_witness :
    (V8ToList.SetList (.array [.int 1, .array [.bool true], .function 3])
        CefListValue.Create)[1]?
      = some (.list (V8ToList.SetList (.array [.bool true]) CefListValue.Create)) ∧
    (V8ToList.SetList (.array [.bool true]) CefListValue.Create).GetSize = 1 :=
  (C9_SetList_size_and_tags [.int 1, .array [.bool true], .function 3]).2 1 (by decide)

/-- C10. `ListValueToV8Value` is total and directed by the slot's tag, at every index:
a list slot gives an array of the nested list's size whose element `j` is the conversion of
the nested slot `j`; a bool, double, int or string slot gives that scalar; every other case
(null slot, binary or dictionary slot, no slot at the index) gives null. -/
theorem C10_ListValueToV8Value_total (l : CefListValue) (i : Nat) :
    match l[i]? with
    | some (.list slots) =>
      ∃ elems, ListToV8.ListValueToV8Value l i = .array elems ∧
        elems.length = CefListValue.GetSize slots ∧
        ∀ j, j < CefListValue.GetSize slots →
          elems[j]? = some (ListToV8.ListValueToV8Value slots j)
    | some (.bool b) => ListToV8.ListValueToV8Value l i = .bool b
    | some (.double d) => ListToV8.ListValueToV8Value l i = .double d
    | some (.int n) => ListToV8.ListValueToV8Value l i = .int n
    | some (.string s) => ListToV8.ListValueToV8Value l i = .string s
    | _ => ListToV8.ListValueToV8Value l i = .null := by
  rw [ListToV8.ListValueToV8Value_eq]
  unfold ListToV8.ofSlotAt
  cases hv : l[i]? with
  | none => simp
  | some s =>
    cases s with
    | list slots =>
      simp only [ListToV8.ofSlot]
      refine ⟨ListToV8.ofSlots slots, rfl, by simp [ListToV8.ofSlots_eq_map, CefListValue.GetSize], ?_⟩
      intro j hj
      simp only [CefListValue.GetSize] at hj
      simp [ListToV8.ListValueToV8Value_eq, ListToV8.ofSlotAt, ListToV8.ofSlots_eq_map,
        List.getElem?_eq_getElem hj]
    | _ => simp [ListToV8.ofSlot]

theorem C10_ListValueToV8Value_total_witness :
    ∃ elems, ListToV8.ListValueToV8Value [.int 1, .list [.null, .string "x"]] 1 = .array elems ∧
      elems.length = 2 ∧
      elems[1]? = some (ListToV8.ListValueToV8Value [.null, .string "x"] 1) := by
  obtain ⟨elems, h1, h2, h3⟩ :=
    C10_ListValueToV8Value_total [.int 1, .list [.null, .string "x"]] 1
  exact ⟨elems, h1, h2, h3 1 (by decide)⟩

/-! ## The registry and the router, case by case -/

namespace CallbackMap

theorem find_erase_self (m : CallbackMap) (id : Int) : find (erase m id) id = none := by
  induction m with
  | nil => simp [erase, find]
  | cons p rest ih =>
    obtain ⟨k, e⟩ := p
    by_cases h : k = id
    · simp [erase, h, ih]
    · simp [erase, find, h, ih]

theorem find_erase_ne (m : CallbackMap) (id k : Int) (hk : k ≠ id) :
    find (erase m id) k = find m k := by
  induction m with
  | nil => simp [erase, find]
  | cons p rest ih =>
    obtain ⟨k', e⟩ := p
    by_cases h : k' = id
    · subst h
      have : ¬ k' = k := fun h' => hk h'.symm
      simp [erase, find, ih, this]
    · by_cases h2 : k' = k
      · subst h2
        simp [erase, find, h]
      · simp [erase, find, h, ih, h2]

theorem find_assign_self (m : CallbackMap) (id : Int) (e : CallbackEntry) :
    find (assign m id e) id = some e := by
  simp [assign, find]

theorem find_assign_ne (m : CallbackMap) (id k : Int) (e : CallbackEntry) (hk : k ≠ id) :
    find (assign m id e) k = find m k := by
  have : id ≠ k := fun h => hk h.symm
  simp [assign, find, this, find_erase_ne m id k hk]

theorem index_of_find (m : CallbackMap) (id : Int) (e : CallbackEntry)
    (h : find m id = some e) : index m id = (e, m) := by
  simp [index, h]

end CallbackMap

namespace ClientApp

theorem delegates_handled (it : List RenderDelegate) (k : Nat) (message : CefProcessMessage)
    (trace : List Event) :
    OnProcessMessageRecieved.delegates it k message true trace = (true, trace) := by
  cases it <;> simp [OnProcessMessageRecieved.delegates]

theorem delegates_eq (it : List RenderDelegate) (message : CefProcessMessage) :
    ∀ (k : Nat) (trace : List Event),
      OnProcessMessageRecieved.delegates it k message false trace
        = (decide (it.findIdx (handles message) < it.length),
           trace ++ (List.range' k (min (it.findIdx (handles message) + 1) it.length)).map
             (fun j => Event.offer j message)) := by
  induction it with
  | nil => intro k trace; simp [OnProcessMessageRecieved.delegates]
  | cons d rest ih =>
    intro k trace
    rw [OnProcessMessageRecieved.delegates]
    simp only [↓reduceIte, List.findIdx_cons, List.length_cons]
    by_cases hd : d.OnProcessMessageRecieved message = true
    · have hh : handles message d = true := hd
      simp [hd, hh, delegates_handled, List.range']
    · have hd' : d.OnProcessMessageRecieved message = false := by simpa using hd
      have hh : handles message d = false := hd'
      rw [hd', ih]
      simp only [hh, cond_false, Nat.add_lt_add_iff_right, Nat.add_min_add_right, List.range'_succ,
        List.map_cons, List.append_assoc, List.singleton_append]

theorem delegates_zero (it : List RenderDelegate) (message : CefProcessMessage)
    (trace : List Event) :
    OnProcessMessageRecieved.delegates it 0 message false trace
      = (decide (it.findIdx (handles message) < it.length),
         trace ++ offers message (offeredCount it message)) := by
  rw [delegates_eq, offers, offeredCount, List.range_eq_range']

theorem loop_eq (messageArgs : CefListValue) :
    ∀ (k i : Nat) (arguments : List CefV8Value), k = messageArgs.GetSize - i →
      OnProcessMessageRecieved.loop messageArgs i arguments
        = arguments ++ (List.range' i (messageArgs.GetSize - i)).map
            (ListToV8.ListValueToV8Value messageArgs) := by
  intro k
  induction k with
  | zero =>
    intro i arguments hk
    rw [OnProcessMessageRecieved.loop]
    have : ¬ i < messageArgs.GetSize := by omega
    simp [this, ← hk]
  | succ k ih =>
    intro i arguments hk
    rw [OnProcessMessageRecieved.loop]
    have : i < messageArgs.GetSize := by omega
    simp only [this, ↓reduceIte]
    rw [ih (i + 1) _ (by omega), ← hk]
    have : messageArgs.GetSize - (i + 1) = k := by omega
    simp [this, List.range'_succ]


theorem delegates_none (it : List RenderDelegate) (message : CefProcessMessage)
    (trace : List Event) (hnone : ∀ d ∈ it, d.OnProcessMessageRecieved message = false) :
    OnProcessMessageRecieved.delegates it 0 message false trace
      = (false, trace ++ offers message it.length) := by
  have h : it.findIdx (handles message) = it.length :=
    List.findIdx_eq_length_of_false (fun d hd => hnone d hd)
  rw [delegates_zero, offeredCount, h]
  simp

theorem delegates_some (it : List RenderDelegate) (message : CefProcessMessage)
    (trace : List Event) (hsome : ∃ d ∈ it, d.OnProcessMessageRecieved message = true) :
    OnProcessMessageRecieved.delegates it 0 message false trace
      = (true, trace ++ offers message (it.findIdx (handles message) + 1)) := by
  have h : it.findIdx (handles message) < it.length :=
    List.findIdx_lt_length_of_exists hsome
  rw [delegates_zero, offeredCount]
  simp [h, Nat.min_eq_left (Nat.succ_le_of_lt h)]

/-- The built-in path on a registered id. -/
theorem invoke_registered (st : Renderer) (args : CefListValue) (ctx : CefV8Context)
    (f : CefV8Value)
    (hnone : ∀ d ∈ st.render_delegates_,
      d.OnProcessMessageRecieved ⟨"invokeCallback", args⟩ = false)
    (hfind : st.callback_map_.find (args.GetInt 0) = some (some ctx, some f)) :
    OnProcessMessageRecieved .PID_BROWSER ⟨"invokeCallback", args⟩ st
      = .ok false
          { st with
            trace := st.trace ++ offers ⟨"invokeCallback", args⟩ st.render_delegates_.length
              ++ [Event.enter ctx,
                  Event.executeFunction f
                    ((List.range' 1 (args.GetSize - 1)).map (ListToV8.ListValueToV8Value args)),
                  Event.exit ctx]
            callback_map_ := st.callback_map_.erase (args.GetInt 0) } := by
  unfold OnProcessMessageRecieved
  simp only [ne_eq, not_true_eq_false, ↓reduceIte, delegates_none _ _ _ hnone,
    CefProcessMessage.GetName, CefProcessMessage.GetArgumentList,
    CallbackMap.index_of_find _ _ _ hfind, loop_eq args _ 1 [] rfl, List.nil_append,
    List.append_assoc, List.cons_append]
  
/-- The built-in path on an id that is not registered. -/
theorem invoke_unregistered (st : Renderer) (args : CefListValue)
    (hnone : ∀ d ∈ st.render_delegates_,
      d.OnProcessMessageRecieved ⟨"invokeCallback", args⟩ = false)
    (hfind : st.callback_map_.find (args.GetInt 0) = none) :
    OnProcessMessageRecieved .PID_BROWSER ⟨"invokeCallback", args⟩ st
      = .fault
          { st with
            trace := st.trace ++ offers ⟨"invokeCallback", args⟩ st.render_delegates_.length
            callback_map_ := st.callback_map_.assign (args.GetInt 0) (none, none) } := by
  unfold OnProcessMessageRecieved
  simp only [ne_eq, not_true_eq_false, ↓reduceIte, delegates_none _ _ _ hnone,
    CefProcessMessage.GetName, CefProcessMessage.GetArgumentList, CallbackMap.index, hfind]

/-- A delegate handles the message. -/
theorem handled_by_delegate (st : Renderer) (message : CefProcessMessage)
    (hsome : ∃ d ∈ st.render_delegates_, d.OnProcessMessageRecieved message = true) :
    OnProcessMessageRecieved .PID_BROWSER message st
      = .ok true
          { st with
            trace := st.trace ++ offers message
              (st.render_delegates_.findIdx (handles message) + 1) } := by
  unfold OnProcessMessageRecieved
  simp only [ne_eq, not_true_eq_false, ↓reduceIte, delegates_some _ _ _ hsome]
  simp

/-- No delegate handles a message that is not the reserved one. -/
theorem other_name (st : Renderer) (message : CefProcessMessage)
    (hnone : ∀ d ∈ st.render_delegates_, d.OnProcessMessageRecieved message = false)
    (hname : message.name ≠ "invokeCallback") :
    OnProcessMessageRecieved .PID_BROWSER message st
      = .ok false { st with trace := st.trace ++ offers message st.render_delegates_.length } := by
  unfold OnProcessMessageRecieved
  simp only [ne_eq, not_true_eq_false, ↓reduceIte, delegates_none _ _ _ hnone,
    CefProcessMessage.GetName, hname]

end ClientApp

/-! ## The dispatcher, case by case -/

namespace AppShellExtensionHandler

/-- What the argument loop leaves in the message's argument list. -/
theorem Execute_loop_slots (arguments : List CefV8Value) :
    ∀ (k i : Nat) (m : CefListValue), k = arguments.length - i → m.length ≤ i →
      (∀ j, j < m.length → (Execute.loop arguments i m)[j]? = m[j]?) ∧
      (∀ j, m.length ≤ j → j < i →
        (Execute.loop arguments i m)[j]? = none ∨
          (Execute.loop arguments i m)[j]? = some CefValue.null) ∧
      (∀ j (hj : j < arguments.length), i ≤ j →
        (V8ToList.supported arguments[j] = true →
          (Execute.loop arguments i m)[j]? = some (V8ToList.toSlot arguments[j])) ∧
        (V8ToList.supported arguments[j] = false →
          (Execute.loop arguments i m)[j]? = none ∨
            (Execute.loop arguments i m)[j]? = some CefValue.null)) := by
  intro k
  induction k with
  | zero =>
    intro i m hk hm
    rw [Execute.loop]
    have : ¬ i < arguments.length := by omega
    simp only [this, ↓reduceDIte]
    refine ⟨fun _ _ => trivial, fun j hj _ => Or.inl (List.getElem?_eq_none hj), ?_⟩
    intro j hj hij
    omega
  | succ k ih =>
    intro i m hk hm
    rw [Execute.loop]
    have hi : i < arguments.length := by omega
    simp only [hi, ↓reduceDIte]
    rw [V8ToList.SetListValue_spec arguments[i] m i]
    by_cases hs : V8ToList.supported arguments[i] = true
    · simp only [hs, ↓reduceIte]
      have hlen : (CefListValue.Set m i (V8ToList.toSlot arguments[i])).length = i + 1 := by
        rw [CefListValue.Set_length]; omega
      obtain ⟨h1, _, h3⟩ := ih (i + 1) (CefListValue.Set m i (V8ToList.toSlot arguments[i]))
        (by omega) (by omega)
      refine ⟨?_, ?_, ?_⟩
      · intro j hj
        rw [h1 j (by omega), CefListValue.Set_getElem?_of_lt _ _ _ _ (by omega)]
        simp [List.getD_eq_getElem?_getD, List.getElem?_eq_getElem hj]
      · intro j hj hji
        right
        rw [h1 j (by omega), CefListValue.Set_getElem?_of_lt _ _ _ _ hji]
        simp [List.getD_eq_getElem?_getD, List.getElem?_eq_none hj]
      · intro j hj hij
        by_cases hji : j = i
        · subst hji
          refine ⟨fun _ => ?_, fun hn => ?_⟩
          · rw [h1 j (by omega), CefListValue.Set_getElem?_self]
          · rw [hs] at hn; cases hn
        · exact h3 j hj (by omega)
    · have hs' : V8ToList.supported arguments[i] = false := by simpa using hs
      simp only [hs', Bool.false_eq_true, ↓reduceIte]
      obtain ⟨h1, h2, h3⟩ := ih (i + 1) m (by omega) (by omega)
      refine ⟨h1, fun j hj hji => h2 j hj (by omega), ?_⟩
      intro j hj hij
      by_cases hji : j = i
      · subst hji
        refine ⟨fun hn => ?_, fun _ => h2 j hm (by omega)⟩
        rw [hs'] at hn; cases hn
      · exact h3 j hj (by omega)

/-- The run of `Execute` on a call that carries a callback. -/
theorem Execute_with_callback (name : String) (f : CefV8Value) (rest : List CefV8Value)
    (current : CefV8Context) (b : Nat) (elapsed : CefDouble) (st : Renderer)
    (hname : name ≠ "GetElapsedMilliseconds") (hf : f.IsFunction = true)
    (hb : current.browser = some b) :
    Execute name (f :: rest) current elapsed st
      = .ok (true, none)
          { st with
            callback_map_ := st.callback_map_.assign st.messageId (some current, some f)
            sent := st.sent ++ [(CefProcessId.PID_BROWSER,
              ⟨name, Execute.loop (f :: rest) 1 [CefValue.int st.messageId]⟩)]
            messageId := wrapInt32 (st.messageId + 1) } := by
  unfold Execute
  have h0 : V8ToList.SetListValue CefListValue.Create 0 (CefV8Value.CreateInt st.messageId)
      = [CefValue.int st.messageId] := by
    rw [V8ToList.SetListValue_spec]
    simp [V8ToList.supported, CefV8Value.CreateInt, CefV8Value.IsInt, CefV8Value.IsArray,
      CefV8Value.IsString, CefV8Value.IsBool, V8ToList.toSlot, CefListValue.Set,
      CefListValue.Create]
  simp [hname, hb, hf, AddCallback, CefProcessMessage.Create,
    CefProcessMessage.GetArgumentList, h0]


/-- The run of `Execute` on a call whose first argument is not a function. -/
theorem Execute_without_callback (name : String) (a : CefV8Value) (rest : List CefV8Value)
    (current : CefV8Context) (b : Nat) (elapsed : CefDouble) (st : Renderer)
    (hname : name ≠ "GetElapsedMilliseconds") (ha : a.IsFunction = false)
    (hb : current.browser = some b) :
    Execute name (a :: rest) current elapsed st
      = .ok (false, none)
          { st with
            stderr := st.stderr ++
              ["Function called without callback param: " ++ name ++ "\n"] } := by
  unfold Execute
  simp [hname, hb, ha]

end AppShellExtensionHandler

open AppShellExtensionHandler in
/-- C2. Dispatch with a callback: for a name other than the reserved one and an argument
list whose first element is a function, called inside a context bound to a browser,
`Execute` returns `true` and hands exactly one message to the outbound channel, named as
the call and targeted at the browser process; slot 0 of its arguments is the integer value
`messageId` had before the call; the registry then maps that id to (current context, first
argument) and is otherwise unchanged; and for every `i` from 1 below the number of
arguments, slot `i` is the converter's image of argument `i`: the same scalar for a bool,
int, double or string, the nested list (of the same length) for an array, and a null or
absent slot for any other type. -/
theorem C2_dispatch_with_callback (name : String) (f : CefV8Value) (rest : List CefV8Value)
    (current : CefV8Context) (b : Nat) (elapsed : CefDouble) (st : Renderer)
    (hname : name ≠ "GetElapsedMilliseconds") (hf : f.IsFunction = true)
    (hb : current.browser = some b) :
    ∃ (args : CefListValue) (st1 : Renderer),
      Execute name (f :: rest) current elapsed st = .ok (true, none) st1 ∧
      st1.sent = st.sent ++ [(CefProcessId.PID_BROWSER, ⟨name, args⟩)] ∧
      args[0]? = some (CefValue.int st.messageId) ∧
      st1.callback_map_.find st.messageId = some (some current, some f) ∧
      (∀ k, k ≠ st.messageId → st1.callback_map_.find k = st.callback_map_.find k) ∧
      ∀ i, 1 ≤ i → i < (f :: rest).length →
        match (f :: rest)[i]? with
        | some (.bool v) => args[i]? = some (CefValue.bool v)
        | some (.int v) => args[i]? = some (CefValue.int v)
        | some (.double v) => args[i]? = some (CefValue.double v)
        | some (.string v) => args[i]? = some (CefValue.string v)
        | some (.array elems) =>
          args[i]? = some (CefValue.list (V8ToList.SetList (.array elems) CefListValue.Create)) ∧
            (V8ToList.SetList (.array elems) CefListValue.Create).GetSize = elems.length
        | _ => args.GetType i = .VTYPE_NULL ∨ args.GetType i = .VTYPE_INVALID := by
  refine ⟨Execute.loop (f :: rest) 1 [CefValue.int st.messageId], _,
    Execute_with_callback name f rest current b elapsed st hname hf hb, rfl, ?_, ?_, ?_, ?_⟩
  · exact (Execute_loop_slots (f :: rest) _ 1 [CefValue.int st.messageId] rfl
      (by simp)).1 0 (by simp)
  · exact CallbackMap.find_assign_self _ _ _
  · intro k hk
    exact CallbackMap.find_assign_ne _ _ _ _ hk
  · intro i hi hlt
    have h3 := (Execute_loop_slots (f :: rest) _ 1 [CefValue.int st.messageId] rfl
      (by simp)).2.2 i hlt hi
    rw [List.getElem?_eq_getElem hlt]
    generalize (f :: rest)[i] = a at h3
    generalize Execute.loop (f :: rest) 1 [CefValue.int st.messageId] = args at h3
    have hlen : ∀ xs : List CefV8Value, (V8ToList.toSlots xs).length = xs.length := by
      intro xs; simp [V8ToList.toSlots_eq_map]
    cases a <;> first
      | (have h := h3.1 rfl
         simp [h, V8ToList.toSlot, V8ToList.SetList_fresh, CefListValue.GetSize, hlen])
      | (rcases h3.2 rfl with h | h <;> simp [CefListValue.GetType, h, CefValue.GetType])

open AppShellExtensionHandler in
theorem C2_dispatch_with_callback_witness :
    ∃ (args : CefListValue) (st1 : Renderer),
      Execute "ShowOpenDialog"
          [.function 5, .int 1, .string "a", .array [.int 2, .int 3]]
          ⟨1, some 7⟩ ⟨0⟩ (Renderer.initial []) = .ok (true, none) st1 ∧
      st1.sent = [(CefProcessId.PID_BROWSER, ⟨"ShowOpenDialog", args⟩)] ∧
      args[0]? = some (CefValue.int 0) ∧
      args[1]? = some (CefValue.int 1) ∧
      args[2]? = some (CefValue.string "a") ∧
      args[3]? = some (CefValue.list [.int 2, .int 3]) := by
  obtain ⟨args, st1, h1, h2, h3, _, _, h6⟩ :=
    C2_dispatch_with_callback "ShowOpenDialog" (.function 5)
      [.int 1, .string "a", .array [.int 2, .int 3]] ⟨1, some 7⟩ 7 ⟨0⟩ (Renderer.initial [])
      (by decide) rfl rfl
  refine ⟨args, st1, h1, by simpa [Renderer.initial] using h2, by simpa [Renderer.initial] using h3, ?_, ?_, ?_⟩
  · simpa using h6 1 (by decide) (by decide)
  · simpa using h6 2 (by decide) (by decide)
  · have := (h6 3 (by decide) (by decide))
    simp only [List.getElem?_cons_succ, List.getElem?_cons_zero] at this
    rw [this.1, V8ToList.SetList_fresh]
    rfl

open AppShellExtensionHandler in
/-- C5. Missing callback: for a name other than the reserved one and a non-empty argument
list whose first element is not a function, called inside a context bound to a browser,
`Execute` returns `false`, sends no message, and leaves the registry and `messageId` as
they were. -/
theorem C5_missing_callback_rejected (name : String) (a : CefV8Value) (rest : List CefV8Value)
    (current : CefV8Context) (b : Nat) (elapsed : CefDouble) (st : Renderer)
    (hname : name ≠ "GetElapsedMilliseconds") (ha : a.IsFunction = false)
    (hb : current.browser = some b) :
    ∃ st1 : Renderer,
      Execute name (a :: rest) current elapsed st = .ok (false, none) st1 ∧
      st1.sent = st.sent ∧
      st1.callback_map_ = st.callback_map_ ∧
      st1.messageId = st.messageId :=
  ⟨_, Execute_without_callback name a rest current b elapsed st hname ha hb, rfl, rfl, rfl⟩

open AppShellExtensionHandler in
theorem C5_missing_callback_rejected_witness :
    ∃ st1 : Renderer,
      Execute "ShowOpenDialog" [.int 1, .string "a"] ⟨1, some 7⟩ ⟨0⟩ (Renderer.initial [])
        = .ok (false, none) st1 ∧
      st1.sent = (Renderer.initial []).sent ∧
      st1.callback_map_ = (Renderer.initial []).callback_map_ ∧
      st1.messageId = (Renderer.initial []).messageId :=
  C5_missing_callback_rejected "ShowOpenDialog" (.int 1) [.string "a"] ⟨1, some 7⟩ 7 ⟨0⟩
    (Renderer.initial []) (by decide) rfl rfl

/-! ## The router -/

open ClientApp in
/-- C3. Built-in callback invocation: for an inbound message named "invokeCallback" that
no delegate handles, whose arguments are `[id, x1, ..., xk]` with `id` registered as
`(ctx, f)`, the router offers the message to every delegate, enters `ctx`, invokes `f` once
with exactly `k` arguments, the `j`-th being `ListValueToV8Value` of slot `j` (slot 0 is
not passed), exits `ctx`, and leaves `id` unregistered and every other entry as it was. -/
theorem C3_builtin_callback_invocation (st : Renderer) (id : Int) (xs : CefListValue)
    (ctx : CefV8Context) (f : CefV8Value)
    (hnone : ∀ d ∈ st.render_delegates_,
      d.OnProcessMessageRecieved ⟨"invokeCallback", CefValue.int id :: xs⟩ = false)
    (hfind : st.callback_map_.find id = some (some ctx, some f)) :
    ∃ (arguments : List CefV8Value) (st1 : Renderer),
      OnProcessMessageRecieved .PID_BROWSER ⟨"invokeCallback", CefValue.int id :: xs⟩ st
        = .ok false st1 ∧
      st1.trace = st.trace
        ++ offers ⟨"invokeCallback", CefValue.int id :: xs⟩ st.render_delegates_.length
        ++ [Event.enter ctx, Event.executeFunction f arguments, Event.exit ctx] ∧
      arguments.length = xs.length ∧
      (∀ j, j < xs.length →
        arguments[j]? = some (ListToV8.ListValueToV8Value (CefValue.int id :: xs) (j + 1))) ∧
      st1.callback_map_.find id = none ∧
      ∀ k, k ≠ id → st1.callback_map_.find k = st.callback_map_.find k := by
  have hid : CefListValue.GetInt (CefValue.int id :: xs) 0 = id := by
    simp [CefListValue.GetInt]
  have h := invoke_registered st (CefValue.int id :: xs) ctx f hnone (by rw [hid]; exact hfind)
  rw [hid] at h
  refine ⟨_, _, h, rfl, by simp [CefListValue.GetSize], ?_,
    CallbackMap.find_erase_self _ _, fun k hk => CallbackMap.find_erase_ne _ _ _ hk⟩
  intro j hj
  simp [CefListValue.GetSize, List.getElem?_map, List.getElem?_range', hj, Nat.add_comm]

open ClientApp in
theorem C3_builtin_callback_invocation_witness :
    ∃ st1 : Renderer,
      OnProcessMessageRecieved .PID_BROWSER
          ⟨"invokeCallback", [CefValue.int 3, CefValue.string "x", CefValue.int 42]⟩
          { Renderer.initial [] with
            callback_map_ := [(3, (some ⟨1, some 7⟩, some (CefV8Value.function 5)))] }
        = .ok false st1 ∧
      st1.trace = [Event.enter ⟨1, some 7⟩,
        Event.executeFunction (CefV8Value.function 5) [.string "x", .int 42],
        Event.exit ⟨1, some 7⟩] ∧
      st1.callback_map_.find 3 = none := by
  obtain ⟨arguments, st1, h1, h2, h3, h4, h5, _⟩ :=
    C3_builtin_callback_invocation
      { Renderer.initial [] with
        callback_map_ := [(3, (some ⟨1, some 7⟩, some (CefV8Value.function 5)))] }
      3 [CefValue.string "x", CefValue.int 42] ⟨1, some 7⟩ (CefV8Value.function 5)
      (by simp [Renderer.initial]) (by simp [CallbackMap.find])
  refine ⟨st1, h1, ?_, h5⟩
  have e0 := h4 0 (by decide)
  have e1 := h4 1 (by decide)
  simp only [ListToV8.ListValueToV8Value_eq, ListToV8.ofSlotAt, List.getElem?_cons_succ,
    List.getElem?_cons_zero, ListToV8.ofSlot] at e0 e1
  have harg : arguments = [.string "x", .int 42] := by
    apply List.ext_getElem?
    intro n
    match n with
    | 0 => simpa using e0
    | 1 => simpa using e1
    | n + 2 =>
      have : arguments.length ≤ n + 2 := by simp [h3]
      simp [List.getElem?_eq_none this]
  rw [h2, harg]
  simp [Renderer.initial, offers]

open ClientApp in
/-- C4. A registered callback fires at most once: after `AddCallback` registers
`(ctx, f)` under `id`, an unhandled "invokeCallback" message for `id` enters `ctx`, invokes
`f` and exits `ctx`, after which `id` is not found in the registry; a second identical
message invokes nothing: it ends in the fault of entering a null context, having extended
the trace by the offers to the delegates only. -/
theorem C4_callback_fires_at_most_once (st : Renderer) (id : Int) (xs : CefListValue)
    (ctx : CefV8Context) (f : CefV8Value)
    (hnone : ∀ d ∈ st.render_delegates_,
      d.OnProcessMessageRecieved ⟨"invokeCallback", CefValue.int id :: xs⟩ = false) :
    ∃ (arguments : List CefV8Value) (st1 st2 : Renderer),
      OnProcessMessageRecieved .PID_BROWSER ⟨"invokeCallback", CefValue.int id :: xs⟩
          (AddCallback st id ctx f) = .ok false st1 ∧
      st1.trace = st.trace
        ++ offers ⟨"invokeCallback", CefValue.int id :: xs⟩ st.render_delegates_.length
        ++ [Event.enter ctx, Event.executeFunction f arguments, Event.exit ctx] ∧
      st1.callback_map_.find id = none ∧
      OnProcessMessageRecieved .PID_BROWSER ⟨"invokeCallback", CefValue.int id :: xs⟩ st1
        = .fault st2 ∧
      st2.trace = st1.trace
        ++ offers ⟨"invokeCallback", CefValue.int id :: xs⟩ st.render_delegates_.length := by
  have hid : CefListValue.GetInt (CefValue.int id :: xs) 0 = id := by
    simp [CefListValue.GetInt]
  have h1 := invoke_registered (AddCallback st id ctx f) (CefValue.int id :: xs) ctx f hnone
    (by rw [hid]; exact CallbackMap.find_assign_self _ _ _)
  rw [hid] at h1
  have h2 := invoke_unregistered
    { AddCallback st id ctx f with
      trace := (AddCallback st id ctx f).trace
        ++ offers ⟨"invokeCallback", CefValue.int id :: xs⟩
            (AddCallback st id ctx f).render_delegates_.length
        ++ [Event.enter ctx,
            Event.executeFunction f
              ((List.range' 1 (CefListValue.GetSize (CefValue.int id :: xs) - 1)).map
                (ListToV8.ListValueToV8Value (CefValue.int id :: xs))),
            Event.exit ctx]
      callback_map_ := (AddCallback st id ctx f).callback_map_.erase id }
    (CefValue.int id :: xs) hnone (by rw [hid]; exact CallbackMap.find_erase_self _ _)
  exact ⟨_, _, _, h1, rfl, CallbackMap.find_erase_self _ _, h2, rfl⟩

open ClientApp in
theorem C4_callback_fires_at_most_once_witness :
    ∃ (arguments : List CefV8Value) (st1 st2 : Renderer),
      OnProcessMessageRecieved .PID_BROWSER ⟨"invokeCallback", [CefValue.int 7]⟩
          (AddCallback (Renderer.initial []) 7 ⟨1, some 7⟩ (.function 5)) = .ok false st1 ∧
      st1.trace = (Renderer.initial []).trace
        ++ offers ⟨"invokeCallback", [CefValue.int 7]⟩ (Renderer.initial []).render_delegates_.length
        ++ [Event.enter ⟨1, some 7⟩, Event.executeFunction (.function 5) arguments,
            Event.exit ⟨1, some 7⟩] ∧
      st1.callback_map_.find 7 = none ∧
      OnProcessMessageRecieved .PID_BROWSER ⟨"invokeCallback", [CefValue.int 7]⟩ st1
        = .fault st2 ∧
      st2.trace = st1.trace
        ++ offers ⟨"invokeCallback", [CefValue.int 7]⟩
            (Renderer.initial []).render_delegates_.length :=
  C4_callback_fires_at_most_once (Renderer.initial []) 7 [] ⟨1, some 7⟩ (.function 5)
    (by simp [Renderer.initial])

open ClientApp in
/-- C7, at the failing input: an "invokeCallback" message for a registered id, with no
delegates, has its callback invoked by the built-in path, and the router returns `false`. -/
theorem C7_builtin_invocation_returns_false :
    OnProcessMessageRecieved .PID_BROWSER ⟨"invokeCallback", [CefValue.int 0]⟩
        { Renderer.initial [] with
          callback_map_ := [(0, (some ⟨1, some 7⟩, some (CefV8Value.function 5)))] }
      = .ok false
          { Renderer.initial [] with
            trace := [Event.enter ⟨1, some 7⟩,
              Event.executeFunction (CefV8Value.function 5) [], Event.exit ⟨1, some 7⟩] } := by
  rw [invoke_registered _ _ ⟨1, some 7⟩ (CefV8Value.function 5) (by simp [Renderer.initial])
    (by simp [CallbackMap.find, CefListValue.GetInt])]
  simp [Renderer.initial, offers, CefListValue.GetSize, CefListValue.GetInt, CallbackMap.erase]

open ClientApp in
/-- The router returns `true` exactly when a delegate reported the message handled. -/
theorem router_result_iff_delegate (st st1 : Renderer) (message : CefProcessMessage)
    (handled : Bool)
    (h : OnProcessMessageRecieved .PID_BROWSER message st = .ok handled st1) :
    handled = true ↔ ∃ d ∈ st.render_delegates_, d.OnProcessMessageRecieved message = true := by
  by_cases hsome : ∃ d ∈ st.render_delegates_, d.OnProcessMessageRecieved message = true
  · rw [handled_by_delegate st message hsome] at h
    simp only [Outcome.ok.injEq] at h
    simp [hsome, ← h.1]
  · have hnone : ∀ d ∈ st.render_delegates_, d.OnProcessMessageRecieved message = false := by
      intro d hd
      by_contra hc
      exact hsome ⟨d, hd, by simpa using hc⟩
    unfold OnProcessMessageRecieved at h
    simp only [ne_eq, not_true_eq_false, ↓reduceIte, delegates_none _ _ _ hnone] at h
    have : handled = false := by
      split at h
      · split at h
        · cases h
        · split at h
          · cases h
          · simp only [Outcome.ok.injEq] at h
            exact h.1.symm
      · simp only [Outcome.ok.injEq] at h
        exact h.1.symm
    simp [this, hsome]

open ClientApp in
/-- C8. Delegate chain short-circuit: the router offers the message to the delegates in
order, up to and including the first that reports it handled and to none after it, and
whatever else it appends to the trace is no offer; when some delegate handles the message
the router returns `true` in the state it started from, with only those offers appended to
the trace: no context entered, no callable invoked, registry unchanged, whatever the name
of the message. -/
theorem C8_delegate_chain_short_circuit (st : Renderer) (message : CefProcessMessage) :
    (∃ tail : List Event,
      (OnProcessMessageRecieved .PID_BROWSER message st).state.trace
        = st.trace ++ offers message (offeredCount st.render_delegates_ message) ++ tail ∧
      ∀ e ∈ tail, e.isOffer = false) ∧
    ((∃ d ∈ st.render_delegates_, d.OnProcessMessageRecieved message = true) →
      OnProcessMessageRecieved .PID_BROWSER message st
        = .ok true
            { st with
              trace := st.trace ++ offers message
                (st.render_delegates_.findIdx (handles message) + 1) }) := by
  refine ⟨?_, handled_by_delegate st message⟩
  unfold OnProcessMessageRecieved
  simp only [ne_eq, not_true_eq_false, ↓reduceIte, delegates_zero]
  split
  · split
    · split
      · exact ⟨[], by simp [Outcome.state], by simp⟩
      · rename_i ctx _
        split
        · exact ⟨[Event.enter ctx], by simp [Outcome.state], by simp [Event.isOffer]⟩
        · rename_i f _
          exact ⟨[Event.enter ctx,
              Event.executeFunction f
                (OnProcessMessageRecieved.loop message.GetArgumentList 1 []),
              Event.exit ctx],
            by simp [Outcome.state], by simp [Event.isOffer]⟩
    · exact ⟨[], by simp [Outcome.state], by simp⟩
  · exact ⟨[], by simp [Outcome.state], by simp⟩

open ClientApp in
theorem C8_delegate_chain_short_circuit_witness :
    OnProcessMessageRecieved .PID_BROWSER ⟨"invokeCallback", [CefValue.int 0]⟩
        { Renderer.initial [declining, claiming, claiming] with
          callback_map_ := [(0, (some ⟨1, some 7⟩, some (CefV8Value.function 5)))] }
      = .ok true
          { Renderer.initial [declining, claiming, claiming] with
            callback_map_ := [(0, (some ⟨1, some 7⟩, some (CefV8Value.function 5)))]
            trace := [Event.offer 0 ⟨"invokeCallback", [CefValue.int 0]⟩,
              Event.offer 1 ⟨"invokeCallback", [CefValue.int 0]⟩] } := by
  have h := (C8_delegate_chain_short_circuit
    { Renderer.initial [declining, claiming, claiming] with
      callback_map_ := [(0, (some ⟨1, some 7⟩, some (CefV8Value.function 5)))] }
    ⟨"invokeCallback", [CefValue.int 0]⟩).2
    ⟨claiming, by simp [Renderer.initial], rfl⟩
  rw [h]
  simp [Renderer.initial, offers, List.findIdx_cons, handles, declining, claiming, List.range_succ]

/-! ## Callback ids along a run -/

theorem wrapInt32_of_range (x : Int) (h1 : -2147483648 ≤ x) (h2 : x < 2147483648) :
    wrapInt32 x = x := by
  unfold wrapInt32
  omega

theorem wrapInt32_max : wrapInt32 (2147483647 + 1) = -2147483648 := by
  decide

theorem allocatedIds_append (sent : List (CefProcessId × CefProcessMessage))
    (pid : CefProcessId) (name : String) (args : CefListValue) :
    allocatedIds (sent ++ [(pid, ⟨name, args⟩)])
      = allocatedIds sent ++
          (match (args[0]? : Option CefValue) with
           | some (CefValue.int id) => [id]
           | _ => []) := by
  cases h : (args[0]? : Option CefValue) with
  | none => simp [allocatedIds, List.filterMap_append, h]
  | some v => cases v <;> simp [allocatedIds, List.filterMap_append, h]

namespace AppShellExtensionHandler

theorem Execute_loop_nil (i : Nat) (m : CefListValue) : Execute.loop [] i m = m := by
  rw [Execute.loop]
  simp

/-- The run of `Execute` on a call without arguments. -/
theorem Execute_no_arguments (name : String) (current : CefV8Context) (b : Nat)
    (elapsed : CefDouble) (st : Renderer)
    (hname : name ≠ "GetElapsedMilliseconds") (hb : current.browser = some b) :
    Execute name [] current elapsed st
      = .ok (true, none)
          { st with
            sent := st.sent ++ [(CefProcessId.PID_BROWSER, ⟨name, []⟩)]
            messageId := wrapInt32 (st.messageId + 1) } := by
  unfold Execute
  simp [hname, hb, CefProcessMessage.Create, CefProcessMessage.GetArgumentList,
    Execute_loop_nil, CefListValue.Create]

/-- The run of `Execute` on the reserved name. -/
theorem Execute_reserved (arguments : List CefV8Value) (current : CefV8Context)
    (elapsed : CefDouble) (st : Renderer) :
    Execute "GetElapsedMilliseconds" arguments current elapsed st
      = .ok (true, some (CefV8Value.CreateDouble elapsed)) st := by
  unfold Execute
  simp

end AppShellExtensionHandler


namespace ClientApp

/-- What a router step that returns leaves untouched. -/
theorem router_frame (source_process : CefProcessId) (message : CefProcessMessage)
    (st st1 : Renderer) (handled : Bool)
    (h : OnProcessMessageRecieved source_process message st = .ok handled st1) :
    st1.messageId = st.messageId ∧ st1.sent = st.sent ∧
      ∀ k e, st1.callback_map_.find k = some e → st.callback_map_.find k = some e := by
  unfold OnProcessMessageRecieved at h
  split at h
  · cases h
  · simp only at h
    split at h
    · split at h
      · cases hfind : st.callback_map_.find (message.GetArgumentList.GetInt 0) with
        | none =>
          simp only [CallbackMap.index, hfind] at h
          cases h
        | some entry =>
          simp only [CallbackMap.index_of_find _ _ _ hfind] at h
          split at h
          · cases h
          · split at h
            · cases h
            · simp only [Outcome.ok.injEq] at h
              obtain ⟨_, h⟩ := h
              subst h
              refine ⟨rfl, rfl, ?_⟩
              intro k e hk
              simp only at hk
              by_cases hkid : k = message.GetArgumentList.GetInt 0
              · rw [hkid, CallbackMap.find_erase_self] at hk
                cases hk
              · rwa [CallbackMap.find_erase_ne _ _ _ hkid] at hk
      · simp only [Outcome.ok.injEq] at h
        obtain ⟨_, h⟩ := h
        subst h
        exact ⟨rfl, rfl, fun _ _ hk => hk⟩
    · simp only [Outcome.ok.injEq] at h
      obtain ⟨_, h⟩ := h
      subst h
      exact ⟨rfl, rfl, fun _ _ hk => hk⟩

end ClientApp


theorem run_append (as bs : List Action) :
    ∀ st : Renderer, run (as ++ bs) st = (run as st).bind (run bs) := by
  induction as with
  | nil => intro st; simp [run]
  | cons a rest ih =>
    intro st
    simp only [List.cons_append, run]
    cases step a st with
    | none => simp
    | some st1 => simp [ih]

theorem allocatedIds_replicate (sent : List (CefProcessId × CefProcessMessage))
    (pid : CefProcessId) (name : String) (n : Nat) :
    allocatedIds (sent ++ List.replicate n (pid, ⟨name, []⟩)) = allocatedIds sent := by
  induction n with
  | zero => simp
  | succ n ih =>
    rw [List.replicate_succ', ← List.append_assoc, allocatedIds_append, ih]
    simp

open AppShellExtensionHandler in
theorem run_replicate_no_arguments (name : String) (current : CefV8Context) (b : Nat)
    (elapsed : CefDouble) (hname : name ≠ "GetElapsedMilliseconds")
    (hb : current.browser = some b) :
    ∀ (n : Nat) (st : Renderer), -2147483648 ≤ st.messageId →
      st.messageId + n < 2147483648 →
      run (List.replicate n (Action.execute name [] current elapsed)) st
        = some { st with
            sent := st.sent ++ List.replicate n (CefProcessId.PID_BROWSER, ⟨name, []⟩)
            messageId := st.messageId + n } := by
  intro n
  induction n with
  | zero => intro st _ _; simp [run]
  | succ n ih =>
    intro st h1 h2
    rw [List.replicate_succ, run, step, Execute_no_arguments name current b elapsed st hname hb]
    simp only
    rw [ih _ (by simp only; rw [wrapInt32_of_range _ (by omega) (by omega)]; omega)
      (by simp only; rw [wrapInt32_of_range _ (by omega) (by omega)]; omega)]
    simp only [wrapInt32_of_range (st.messageId + 1) (by omega) (by omega), List.append_assoc,
      List.singleton_append, ← List.replicate_succ]
    congr 2
    push_cast
    omega


open AppShellExtensionHandler in
theorem Execute_loop_single (a : CefV8Value) (m : CefListValue) :
    Execute.loop [a] 1 m = m := by
  rw [Execute.loop]
  simp

open AppShellExtensionHandler in
/-- After `n = 2 ^ 31 - 1` calls without arguments, two calls with a callback. -/
theorem ids_after_wrap (n : Nat) (hn : n = 2147483647) :
    ∃ st : Renderer,
      run (List.replicate n (Action.execute "f" [] ⟨1, some 7⟩ ⟨0⟩)
          ++ [Action.execute "f" [.function 5] ⟨1, some 7⟩ ⟨0⟩,
              Action.execute "f" [.function 5] ⟨1, some 7⟩ ⟨0⟩])
        (Renderer.initial []) = some st ∧
      allocatedIds st.sent = [2147483647, -2147483648] := by
  have hname : ("f" : String) ≠ "GetElapsedMilliseconds" := by decide
  rw [run_append, run_replicate_no_arguments "f" ⟨1, some 7⟩ 7 ⟨0⟩ hname rfl n
    (Renderer.initial []) (by simp [Renderer.initial]) (by simp [Renderer.initial]; omega)]
  simp only [Option.bind, run, step]
  rw [Execute_with_callback "f" (.function 5) [] ⟨1, some 7⟩ 7 ⟨0⟩ _ hname rfl rfl]
  simp only
  rw [Execute_with_callback "f" (.function 5) [] ⟨1, some 7⟩ 7 ⟨0⟩ _ hname rfl rfl]
  refine ⟨_, rfl, ?_⟩
  simp only [Execute_loop_single, allocatedIds_append, allocatedIds_replicate,
    List.getElem?_cons_zero, Renderer.initial, List.nil_append]
  have hrep := allocatedIds_replicate [] CefProcessId.PID_BROWSER "f" n
  simp only [List.nil_append] at hrep
  have hlast : (0 : Int) + (n : Int) = 2147483647 := by omega
  rw [hrep, hlast, wrapInt32_max]
  rfl


/-! ## Empty arrays, the reserved call, usage errors and unsupported values -/

/-- C11. Zero-length arrays: `SetList` (script value to list) of an empty array returns
the target as it is, so a fresh target keeps size 0; `SetList` (list to script value) of an
empty list returns the target array as it is, so a zero-length target stays zero-length;
and an empty array stored at position `i` becomes a list slot holding a list of size 0,
which both list-to-script converters turn into an array of length 0, not into null. -/
theorem C11_zero_length_arrays :
    (∀ target : CefListValue, V8ToList.SetList (.array []) target = target) ∧
    (V8ToList.SetList (.array []) CefListValue.Create).GetSize = 0 ∧
    (∀ target : CefV8Value, ListToV8.SetList [] target = target) ∧
    ListToV8.SetList [] (CefV8Value.CreateArray 0) = .array [] ∧
    ∀ (list : CefListValue) (i : Nat),
      (V8ToList.SetListValue list i (.array []))[i]? = some (CefValue.list []) ∧
      ListToV8.ListValueToV8Value (V8ToList.SetListValue list i (.array [])) i = .array [] ∧
      ∀ target : CefV8Value,
        ListToV8.SetListValue target i (V8ToList.SetListValue list i (.array []))
          = target.SetValue i (.array []) := by
  have h1 : ∀ target : CefListValue, V8ToList.SetList (.array []) target = target := by
    intro target
    rw [V8ToList.SetList]
    simp [CefV8Value.GetArrayLength]
  have h3 : ∀ target : CefV8Value, ListToV8.SetList [] target = target := by
    intro target
    rw [ListToV8.SetList]
    simp [CefListValue.GetSize]
  refine ⟨h1, by rw [h1]; rfl, h3, by rw [h3]; rfl, ?_⟩
  intro list i
  have hset : V8ToList.SetListValue list i (.array []) = list.Set i (CefValue.list []) := by
    rw [V8ToList.SetListValue]
    simp [CefV8Value.IsArray, h1, CefListValue.SetList, CefListValue.Create]
  have hslot : (V8ToList.SetListValue list i (.array []))[i]? = some (CefValue.list []) := by
    rw [hset, CefListValue.Set_getElem?_self]
  refine ⟨hslot, ?_, ?_⟩
  · rw [ListToV8.ListValueToV8Value_eq]
    simp [ListToV8.ofSlotAt, hslot, ListToV8.ofSlot, ListToV8.ofSlots]
  · intro target
    rw [ListToV8.SetListValue_eq]
    simp [ListToV8.ofSlotAt, hslot, ListToV8.ofSlot, ListToV8.ofSlots]

open AppShellExtensionHandler in
/-- C12. The reserved call is local: for every argument list, context and state, `Execute`
with the name "GetElapsedMilliseconds" returns `true`, sets the return value to a double
equal to the value of the elapsed-time source, sends no message and leaves the registry and
`messageId` unchanged; whatever holds of the source's value (being non-negative, say)
holds of the value returned. -/
theorem C12_elapsed_time_is_local (arguments : List CefV8Value) (current : CefV8Context)
    (elapsed : CefDouble) (st : Renderer) :
    ∃ (retval : CefV8Value) (st1 : Renderer),
      Execute "GetElapsedMilliseconds" arguments current elapsed st
        = .ok (true, some retval) st1 ∧
      st1.sent = st.sent ∧
      st1.callback_map_ = st.callback_map_ ∧
      st1.messageId = st.messageId ∧
      retval.IsDouble = true ∧
      retval.GetDoubleValue = elapsed ∧
      ∀ nonNegative : CefDouble → Prop, nonNegative elapsed →
        nonNegative retval.GetDoubleValue :=
  ⟨CefV8Value.CreateDouble elapsed, st, Execute_reserved arguments current elapsed st,
    rfl, rfl, rfl, rfl, rfl, fun _ h => h⟩

open AppShellExtensionHandler in
theorem C12_elapsed_time_is_local_witness :
    ∃ (retval : CefV8Value) (st1 : Renderer),
      Execute "GetElapsedMilliseconds" [.int 1] ⟨1, none⟩ ⟨5⟩ (Renderer.initial [])
        = .ok (true, some retval) st1 ∧
      st1.sent = [] ∧
      st1.messageId = 0 ∧
      retval.GetDoubleValue = ⟨5⟩ ∧
      retval.GetDoubleValue.bits < 9223372036854775808 := by
  obtain ⟨retval, st1, h1, h2, _, h4, _, h6, h7⟩ :=
    C12_elapsed_time_is_local [.int 1] ⟨1, none⟩ ⟨5⟩ (Renderer.initial [])
  exact ⟨retval, st1, h1, h2, h4, h6,
    h7 (fun d => d.bits < 9223372036854775808) (by decide)⟩

open AppShellExtensionHandler in
/-- C13, as stated, fails: called with `[1, "a"]`, whose first element is no function,
`Execute` returns `false`, not `true`. -/
theorem C13_usage_error_returns_false_at_input :
    Execute "ShowOpenDialog" [.int 1, .string "a"] ⟨1, some 7⟩ ⟨0⟩ (Renderer.initial [])
      = .ok (false, none)
          { Renderer.initial [] with
            stderr := ["Function called without callback param: ShowOpenDialog\n"] } ∧
    ¬ ∃ (retval : Option CefV8Value) (st1 : Renderer),
      Execute "ShowOpenDialog" [.int 1, .string "a"] ⟨1, some 7⟩ ⟨0⟩ (Renderer.initial [])
        = .ok (true, retval) st1 := by
  have h := Execute_without_callback "ShowOpenDialog" (.int 1) [.string "a"] ⟨1, some 7⟩ 7 ⟨0⟩
    (Renderer.initial []) (by decide) rfl rfl
  refine ⟨by rw [h]; simp [Renderer.initial], ?_⟩
  rintro ⟨retval, st1, h2⟩
  rw [h] at h2
  simp at h2

open AppShellExtensionHandler in
/-- C13, amended. Usage error: for a name other than the reserved one and a non-empty
argument list whose first element is not a function, called inside a context bound to a
browser, `Execute` emits the diagnostic naming the call, sends nothing, and returns
`false`. -/
theorem C13_usage_error_reports_failure (name : String) (a : CefV8Value)
    (rest : List CefV8Value) (current : CefV8Context) (b : Nat) (elapsed : CefDouble)
    (st : Renderer) (hname : name ≠ "GetElapsedMilliseconds") (ha : a.IsFunction = false)
    (hb : current.browser = some b) :
    ∃ st1 : Renderer,
      Execute name (a :: rest) current elapsed st = .ok (false, none) st1 ∧
      st1.sent = st.sent ∧
      st1.stderr = st.stderr ++ ["Function called without callback param: " ++ name ++ "\n"] :=
  ⟨_, Execute_without_callback name a rest current b elapsed st hname ha hb, rfl, rfl⟩

open AppShellExtensionHandler in
theorem C13_usage_error_reports_failure_witness :
    ∃ st1 : Renderer,
      Execute "ShowOpenDialog" [.int 1, .string "a"] ⟨1, some 7⟩ ⟨0⟩ (Renderer.initial [])
        = .ok (false, none) st1 ∧
      st1.sent = (Renderer.initial []).sent ∧
      st1.stderr = (Renderer.initial []).stderr
        ++ ["Function called without callback param: " ++ "ShowOpenDialog" ++ "\n"] :=
  C13_usage_error_reports_failure "ShowOpenDialog" (.int 1) [.string "a"] ⟨1, some 7⟩ 7 ⟨0⟩
    (Renderer.initial []) (by decide) rfl rfl

open ClientApp in
/-- C14, at the failing input: an "invokeCallback" message for id 3 arriving at an empty
registry ends in a fault, with an entry of null references left under id 3. -/
theorem C14_unknown_id_faults :
    OnProcessMessageRecieved .PID_BROWSER ⟨"invokeCallback", [CefValue.int 3]⟩
        (Renderer.initial [])
      = .fault { Renderer.initial [] with callback_map_ := [(3, (none, none))] } := by
  rw [invoke_unregistered _ _ (by simp [Renderer.initial])
    (by simp [Renderer.initial, CallbackMap.find])]
  simp [Renderer.initial, offers, CefListValue.GetInt, CallbackMap.assign, CallbackMap.erase]


theorem ofSlots_toSlots_nullified (elems : List CefV8Value)
    (ih : ∀ x ∈ elems, ListToV8.ofSlot (V8ToList.toSlot x) = x.nullified) :
    ListToV8.ofSlots (V8ToList.toSlots elems) = CefV8Value.nullifiedAll elems := by
  induction elems with
  | nil => simp [V8ToList.toSlots, ListToV8.ofSlots, CefV8Value.nullifiedAll]
  | cons x rest ihr =>
    simp only [V8ToList.toSlots, ListToV8.ofSlots, CefV8Value.nullifiedAll]
    rw [ih x (by simp), ihr (fun y hy => ih y (by simp [hy]))]

theorem ofSlot_toSlot_nullified : ∀ v : CefV8Value,
    ListToV8.ofSlot (V8ToList.toSlot v) = v.nullified := by
  apply CefV8Value.v8_induct
  · intro elems ih
    simp only [V8ToList.toSlot, ListToV8.ofSlot, CefV8Value.nullified,
      ofSlots_toSlots_nullified elems ih]
  · intro v hv
    cases v <;> simp [CefV8Value.IsArray] at hv <;>
      simp [V8ToList.toSlot, ListToV8.ofSlot, CefV8Value.nullified]

theorem nullifiedAll_idem (elems : List CefV8Value)
    (ih : ∀ x ∈ elems, x.nullified.nullified = x.nullified) :
    CefV8Value.nullifiedAll (CefV8Value.nullifiedAll elems) = CefV8Value.nullifiedAll elems := by
  induction elems with
  | nil => simp [CefV8Value.nullifiedAll]
  | cons x rest ihr =>
    simp only [CefV8Value.nullifiedAll]
    rw [ih x (by simp), ihr (fun y hy => ih y (by simp [hy]))]

theorem nullified_idem : ∀ v : CefV8Value, v.nullified.nullified = v.nullified := by
  apply CefV8Value.v8_induct
  · intro elems ih
    simp only [CefV8Value.nullified, nullifiedAll_idem elems ih]
  · intro v hv
    cases v <;> simp [CefV8Value.IsArray] at hv <;> simp [CefV8Value.nullified]

theorem listAndBack_array (elems : List CefV8Value) :
    listAndBack (.array elems) = .array (CefV8Value.nullifiedAll elems) := by
  unfold listAndBack
  rw [ListToV8.SetList_eq_ofSlots, V8ToList.SetList_fresh]
  have := ofSlot_toSlot_nullified (.array elems)
  simpa [V8ToList.toSlot, ListToV8.ofSlot, CefV8Value.nullified] using this

/-- C16. Unsupported values become null: converting any array to a list and back yields the
array with every element that is neither a supported scalar nor an array replaced by null,
at every depth, all else unchanged; and converting that result to a list and back again
gives the same result. -/
theorem C16_unsupported_coerced_to_null (elems : List CefV8Value) :
    listAndBack (.array elems) = (CefV8Value.array elems).nullified ∧
    listAndBack (listAndBack (.array elems)) = listAndBack (.array elems) := by
  have h1 := listAndBack_array elems
  refine ⟨by rw [h1]; rfl, ?_⟩
  rw [h1, listAndBack_array]
  have := nullified_idem (.array elems)
  simpa [CefV8Value.nullified] using this

theorem C16_unsupported_coerced_to_null_witness :
    listAndBack (.array [.int 1, .function 5, .array [.null, .object 2, .string "a"], .undefined])
      = .array [.int 1, .null, .array [.null, .null, .string "a"], .null] :=
  (C16_unsupported_coerced_to_null
    [.int 1, .function 5, .array [.null, .object 2, .string "a"], .undefined]).1

open AppShellExtensionHandler in
/-- C17, as stated, fails: a call without arguments in the initial state sends one message
with an empty argument list and leaves `messageId` at 1, not at 0. -/
theorem C17_no_argument_call_advances_counter :
    Execute "ShowDeveloperTools" [] ⟨1, some 7⟩ ⟨0⟩ (Renderer.initial [])
      = .ok (true, none)
          { Renderer.initial [] with
            sent := [(CefProcessId.PID_BROWSER, ⟨"ShowDeveloperTools", []⟩)]
            messageId := 1 } ∧
    (Execute "ShowDeveloperTools" [] ⟨1, some 7⟩ ⟨0⟩ (Renderer.initial [])).state.messageId
      ≠ (Renderer.initial []).messageId := by
  have h := Execute_no_arguments "ShowDeveloperTools" ⟨1, some 7⟩ 7 ⟨0⟩ (Renderer.initial [])
    (by decide) rfl
  have hw : wrapInt32 1 = 1 := by decide
  rw [h]
  refine ⟨by simp [Renderer.initial, hw], ?_⟩
  simp [Outcome.state, Renderer.initial, hw]

open AppShellExtensionHandler in
/-- C17, amended. A call without arguments, under a name other than the reserved one and
inside a context bound to a browser, sends one message with an empty argument list, leaves
the registry unchanged, and advances `messageId` by one (with `int32` wrap-around). -/
theorem C17_no_argument_call (name : String) (current : CefV8Context) (b : Nat)
    (elapsed : CefDouble) (st : Renderer) (hname : name ≠ "GetElapsedMilliseconds")
    (hb : current.browser = some b) :
    ∃ st1 : Renderer,
      Execute name [] current elapsed st = .ok (true, none) st1 ∧
      st1.sent = st.sent ++ [(CefProcessId.PID_BROWSER, ⟨name, []⟩)] ∧
      st1.callback_map_ = st.callback_map_ ∧
      st1.messageId = wrapInt32 (st.messageId + 1) :=
  ⟨_, Execute_no_arguments name current b elapsed st hname hb, rfl, rfl, rfl⟩

open AppShellExtensionHandler in
theorem C17_no_argument_call_witness :
    ∃ st1 : Renderer,
      Execute "ShowDeveloperTools" [] ⟨1, some 7⟩ ⟨0⟩ (Renderer.initial [])
        = .ok (true, none) st1 ∧
      st1.sent = (Renderer.initial []).sent
        ++ [(CefProcessId.PID_BROWSER, ⟨"ShowDeveloperTools", []⟩)] ∧
      st1.callback_map_ = (Renderer.initial []).callback_map_ ∧
      st1.messageId = wrapInt32 ((Renderer.initial []).messageId + 1) :=
  C17_no_argument_call "ShowDeveloperTools" ⟨1, some 7⟩ 7 ⟨0⟩ (Renderer.initial [])
    (by decide) rfl

/-- C19. The two list-to-script element converters agree: for a target array and an index
within its length, `SetListValue` (list to script value) stores at that index exactly the
value `ListValueToV8Value` returns for the same list and index, and leaves the length of
the array as it was. -/
theorem C19_element_converters_agree (l : CefListValue) (i : Nat) (elems : List CefV8Value)
    (hi : i < elems.length) :
    ListToV8.SetListValue (.array elems) i l
      = (CefV8Value.array elems).SetValue i (ListToV8.ListValueToV8Value l i) ∧
    (ListToV8.SetListValue (.array elems) i l).GetValue i
      = ListToV8.ListValueToV8Value l i ∧
    (ListToV8.SetListValue (.array elems) i l).GetArrayLength = elems.length := by
  rw [ListToV8.SetListValue_eq, ListToV8.ListValueToV8Value_eq]
  simp [CefV8Value.SetValue, hi, CefV8Value.GetValue, CefV8Value.GetArrayLength,
    List.getD_eq_getElem?_getD]

theorem C19_element_converters_agree_witness :
    ListToV8.SetListValue (.array [.undefined, .undefined]) 1
        [CefValue.int 1, CefValue.list [CefValue.string "x", CefValue.binary 3]]
      = (CefV8Value.array [.undefined, .undefined]).SetValue 1
          (ListToV8.ListValueToV8Value
            [CefValue.int 1, CefValue.list [CefValue.string "x", CefValue.binary 3]] 1) ∧
    (ListToV8.SetListValue (.array [.undefined, .undefined]) 1
        [CefValue.int 1, CefValue.list [CefValue.string "x", CefValue.binary 3]]).GetValue 1
      = ListToV8.ListValueToV8Value
          [CefValue.int 1, CefValue.list [CefValue.string "x", CefValue.binary 3]] 1 ∧
    (ListToV8.SetListValue (.array [.undefined, .undefined]) 1
        [CefValue.int 1, CefValue.list [CefValue.string "x", CefValue.binary 3]]).GetArrayLength
      = 2 :=
  C19_element_converters_agree _ 1 [.undefined, .undefined] (by decide)

/-! ## Context pairing -/

theorem enters_append (a b : List Event) : enters (a ++ b) = enters a + enters b := by
  simp [enters, List.filter_append]

theorem exits_append (a b : List Event) : exits (a ++ b) = exits a + exits b := by
  simp [exits, List.filter_append]

theorem enters_of_offers (pre : List Event) (h : ∀ e ∈ pre, e.isOffer = true) :
    enters pre = 0 := by
  simp only [enters, List.length_eq_zero, List.filter_eq_nil_iff]
  intro e he
  have := h e he
  cases e <;> simp_all [Event.isOffer, Event.isEnter]

theorem exits_of_offers (pre : List Event) (h : ∀ e ∈ pre, e.isOffer = true) :
    exits pre = 0 := by
  simp only [exits, List.length_eq_zero, List.filter_eq_nil_iff]
  intro e he
  have := h e he
  cases e <;> simp_all [Event.isOffer, Event.isExit]

theorem offers_isOffer (message : CefProcessMessage) (n : Nat) :
    ∀ e ∈ offers message n, e.isOffer = true := by
  intro e he
  simp only [offers, List.mem_map] at he
  obtain ⟨k, _, rfl⟩ := he
  rfl

namespace AppShellExtensionHandler

/-- What a call of `Execute` that returns has done to the state. -/
theorem Execute_cases (name : String) (arguments : List CefV8Value) (current : CefV8Context)
    (elapsed : CefDouble) (st st1 : Renderer) (r : Bool × Option CefV8Value)
    (h : Execute name arguments current elapsed st = .ok r st1) :
    st1.trace = st.trace ∧ st1.render_delegates_ = st.render_delegates_ ∧
    (((Action.execute name arguments current elapsed).advances = false ∧
        st1.callback_map_ = st.callback_map_ ∧ st1.messageId = st.messageId) ∨
      ((Action.execute name arguments current elapsed).advances = true ∧
        st1.messageId = wrapInt32 (st.messageId + 1) ∧
        (st1.callback_map_ = st.callback_map_ ∨
          ∃ f, st1.callback_map_
            = st.callback_map_.assign st.messageId (some current, some f)))) := by
  by_cases hname : name = "GetElapsedMilliseconds"
  · subst hname
    rw [Execute_reserved] at h
    simp only [Outcome.ok.injEq] at h
    obtain ⟨_, rfl⟩ := h
    exact ⟨rfl, rfl, Or.inl ⟨by simp [Action.advances], rfl, rfl⟩⟩
  · cases hb : current.browser with
    | none =>
      unfold Execute at h
      simp [hname, hb] at h
    | some b =>
      cases arguments with
      | nil =>
        rw [Execute_no_arguments name current b elapsed st hname hb] at h
        simp only [Outcome.ok.injEq] at h
        obtain ⟨_, rfl⟩ := h
        exact ⟨rfl, rfl, Or.inr ⟨by simp [Action.advances, hname], rfl, Or.inl rfl⟩⟩
      | cons a0 rest =>
        by_cases hf : a0.IsFunction = true
        · rw [Execute_with_callback name a0 rest current b elapsed st hname hf hb] at h
          simp only [Outcome.ok.injEq] at h
          obtain ⟨_, rfl⟩ := h
          exact ⟨rfl, rfl, Or.inr ⟨by simp [Action.advances, hname, hf], rfl,
            Or.inr ⟨a0, rfl⟩⟩⟩
        · have hf' : a0.IsFunction = false := by simpa using hf
          rw [Execute_without_callback name a0 rest current b elapsed st hname hf' hb] at h
          simp only [Outcome.ok.injEq] at h
          obtain ⟨_, rfl⟩ := h
          exact ⟨rfl, rfl, Or.inl ⟨by simp [Action.advances, hf'], rfl, rfl⟩⟩

end AppShellExtensionHandler

namespace ClientApp

/-- What a router step appends to the trace, on a registry without null references. -/
theorem router_trace (source_process : CefProcessId) (message : CefProcessMessage)
    (st : Renderer) (hwf : RegistryComplete st) :
    ∃ pre core : List Event,
      (OnProcessMessageRecieved source_process message st).state.trace
        = st.trace ++ pre ++ core ∧
      (∀ e ∈ pre, e.isOffer = true) ∧
      (core = [] ∨
        ∃ (ctx : CefV8Context) (f : CefV8Value),
          core = [Event.enter ctx,
            Event.executeFunction f
              ((List.range' 1 (message.GetArgumentList.GetSize - 1)).map
                (ListToV8.ListValueToV8Value message.GetArgumentList)),
            Event.exit ctx]) := by
  by_cases hsrc : source_process = CefProcessId.PID_BROWSER
  · subst hsrc
    by_cases hsome : ∃ d ∈ st.render_delegates_, d.OnProcessMessageRecieved message = true
    · rw [handled_by_delegate st message hsome]
      exact ⟨offers message (st.render_delegates_.findIdx (handles message) + 1), [],
        by simp [Outcome.state], offers_isOffer _ _, Or.inl rfl⟩
    · have hnone : ∀ d ∈ st.render_delegates_, d.OnProcessMessageRecieved message = false := by
        intro d hd
        by_contra hc
        exact hsome ⟨d, hd, by simpa using hc⟩
      by_cases hname : message.name = "invokeCallback"
      · obtain ⟨name, args⟩ := message
        simp only at hname
        subst hname
        cases hfind : st.callback_map_.find (CefListValue.GetInt args 0) with
        | none =>
          rw [invoke_unregistered st args hnone hfind]
          exact ⟨offers ⟨"invokeCallback", args⟩ st.render_delegates_.length, [],
            by simp [Outcome.state], offers_isOffer _ _, Or.inl rfl⟩
        | some e =>
          obtain ⟨c, f, rfl⟩ := hwf _ e hfind
          rw [invoke_registered st args c f hnone hfind]
          exact ⟨offers ⟨"invokeCallback", args⟩ st.render_delegates_.length, _, rfl,
            offers_isOffer _ _, Or.inr ⟨c, f, rfl⟩⟩
      · rw [other_name st message hnone hname]
        exact ⟨offers message st.render_delegates_.length, [],
          by simp [Outcome.state], offers_isOffer _ _, Or.inl rfl⟩
  · unfold OnProcessMessageRecieved
    simp only [ne_eq, hsrc, not_false_eq_true, ↓reduceIte]
    exact ⟨[], [], by simp [Outcome.state], by simp, Or.inl rfl⟩

end ClientApp

open AppShellExtensionHandler ClientApp in
theorem step_registryComplete (a : Action) (st st1 : Renderer) (hwf : RegistryComplete st)
    (hstep : step a st = some st1) : RegistryComplete st1 := by
  cases a with
  | receive source_process message =>
    simp only [step] at hstep
    split at hstep
    · rename_i r st2 hr
      cases hstep
      obtain ⟨_, _, h3⟩ := router_frame _ _ _ _ _ hr
      exact fun k e hk => hwf k e (h3 k e hk)
    · cases hstep
  | execute name arguments current elapsed =>
    simp only [step] at hstep
    split at hstep
    · rename_i r st2 hr
      cases hstep
      obtain ⟨_, _, hc⟩ := Execute_cases _ _ _ _ _ _ _ hr
      rcases hc with ⟨_, hm, _⟩ | ⟨_, _, hm | ⟨f, hm⟩⟩
      · intro k e hk; rw [hm] at hk; exact hwf k e hk
      · intro k e hk; rw [hm] at hk; exact hwf k e hk
      · intro k e hk
        rw [hm] at hk
        by_cases hkid : k = st.messageId
        · subst hkid
          rw [CallbackMap.find_assign_self] at hk
          cases hk
          exact ⟨_, _, rfl⟩
        · rw [CallbackMap.find_assign_ne _ _ _ _ hkid] at hk
          exact hwf k e hk
    · cases hstep

theorem run_registryComplete (actions : List Action) :
    ∀ st st1 : Renderer, RegistryComplete st → run actions st = some st1 →
      RegistryComplete st1 := by
  induction actions with
  | nil =>
    intro st st1 hwf hrun
    simp only [run, Option.some.injEq] at hrun
    subst hrun
    exact hwf
  | cons a rest ih =>
    intro st st1 hwf hrun
    simp only [run] at hrun
    cases hs : step a st with
    | none => simp [hs] at hrun
    | some st2 =>
      simp only [hs] at hrun
      exact ih st2 st1 (step_registryComplete a st st2 hwf hs) hrun

theorem initial_registryComplete (delegates : List RenderDelegate) :
    RegistryComplete (Renderer.initial delegates) := by
  intro k e hk
  simp [Renderer.initial, CallbackMap.find] at hk


open AppShellExtensionHandler ClientApp in
theorem step_contextDepth (a : Action) (st st1 : Renderer) (hwf : RegistryComplete st)
    (hstep : step a st = some st1) : contextDepth st1.trace = contextDepth st.trace := by
  cases a with
  | receive source_process message =>
    obtain ⟨pre, core, htrace, hpre, hcore⟩ := router_trace source_process message st hwf
    simp only [step] at hstep
    split at hstep
    · rename_i r st2 hr
      cases hstep
      rw [hr] at htrace
      simp only [Outcome.state] at htrace
      rw [htrace]
      simp only [contextDepth, enters_append, exits_append, enters_of_offers pre hpre,
        exits_of_offers pre hpre]
      rcases hcore with rfl | ⟨ctx, f, rfl⟩
      · simp [enters, exits]
      · simp [enters, exits, Event.isEnter, Event.isExit]
    · cases hstep
  | execute name arguments current elapsed =>
    simp only [step] at hstep
    split at hstep
    · rename_i r st2 hr
      cases hstep
      rw [(Execute_cases _ _ _ _ _ _ _ hr).1]
    · cases hstep

theorem run_contextDepth (actions : List Action) :
    ∀ st st1 : Renderer, RegistryComplete st → run actions st = some st1 →
      contextDepth st1.trace = contextDepth st.trace := by
  induction actions with
  | nil =>
    intro st st1 _ hrun
    simp only [run, Option.some.injEq] at hrun
    subst hrun
    rfl
  | cons a rest ih =>
    intro st st1 hwf hrun
    simp only [run] at hrun
    cases hs : step a st with
    | none => simp [hs] at hrun
    | some st2 =>
      simp only [hs] at hrun
      rw [ih st2 st1 (step_registryComplete a st st2 hwf hs) hrun,
        step_contextDepth a st st2 hwf hs]

/-! ## Lifetime of a pending entry -/

theorem wrapInt32_succ (x : Int) : wrapInt32 (wrapInt32 x + 1) = wrapInt32 (x + 1) := by
  unfold wrapInt32
  omega

namespace ClientApp

end ClientApp


open AppShellExtensionHandler in
theorem run_replicate_no_arguments_wrap (name : String) (current : CefV8Context) (b : Nat)
    (elapsed : CefDouble) (hname : name ≠ "GetElapsedMilliseconds")
    (hb : current.browser = some b) :
    ∀ (n : Nat) (st : Renderer), -2147483648 ≤ st.messageId → st.messageId < 2147483648 →
      run (List.replicate n (Action.execute name [] current elapsed)) st
        = some { st with
            sent := st.sent ++ List.replicate n (CefProcessId.PID_BROWSER, ⟨name, []⟩)
            messageId := wrapInt32 (st.messageId + n) } := by
  intro n
  induction n with
  | zero =>
    intro st h1 h2
    simp [run, wrapInt32_of_range _ h1 h2]
  | succ n ih =>
    intro st h1 h2
    rw [List.replicate_succ, run, step, Execute_no_arguments name current b elapsed st hname hb]
    simp only
    rw [ih _ (by simp only [wrapInt32]; omega) (by simp only [wrapInt32]; omega)]
    simp only [List.append_assoc, List.singleton_append, ← List.replicate_succ]
    congr 2
    have : wrapInt32 (wrapInt32 (st.messageId + 1) + (n : Int))
        = wrapInt32 (st.messageId + ((n + 1 : Nat) : Int)) := by
      unfold wrapInt32
      push_cast
      omega
    exact this

/-! ## Callback ids along a run of any length -/

theorem wrapInt32_mem_range (x : Int) :
    -2147483648 ≤ wrapInt32 x ∧ wrapInt32 x < 2147483648 := by
  unfold wrapInt32
  omega

theorem wrapInt32_lt_of_lt (a b : Nat) (hab : a < b) (hb : b < 2147483648) :
    wrapInt32 (a : Int) < wrapInt32 (b : Int) := by
  rw [wrapInt32_of_range _ (by omega) (by omega), wrapInt32_of_range _ (by omega) (by omega)]
  omega

theorem wrapInt32_ne_of_lt_nat (a b : Nat) (hab : a < b) (hb : b < 4294967296) :
    wrapInt32 (a : Int) ≠ wrapInt32 (b : Int) := by
  unfold wrapInt32
  omega

open AppShellExtensionHandler ClientApp in
theorem step_idTrace (n : Nat) (a : Action) (st st1 : Renderer) (hinv : IdTrace n st)
    (hstep : step a st = some st1) :
    IdTrace (n + (if a.advances = true then 1 else 0)) st1 := by
  obtain ⟨hid, ⟨js, hjs, hpw, hlt⟩, hreg⟩ := hinv
  cases a with
  | receive source_process message =>
    simp only [step] at hstep
    split at hstep
    · rename_i r st2 hr
      cases hstep
      obtain ⟨h1, h2, h3⟩ := router_frame _ _ _ _ _ hr
      simp only [Action.advances, Bool.false_eq_true, ↓reduceIte, Nat.add_zero]
      exact ⟨by rw [h1, hid], ⟨js, by rw [h2]; exact hjs, hpw, hlt⟩,
        fun k e hk => hreg k e (h3 k e hk)⟩
    · cases hstep
  | execute name arguments current elapsed =>
    simp only [step] at hstep
    by_cases hname : name = "GetElapsedMilliseconds"
    · subst hname
      rw [Execute_reserved] at hstep
      cases hstep
      simp only [Action.advances, ne_eq, not_true_eq_false, decide_False, Bool.false_and,
        Bool.false_eq_true, ↓reduceIte, Nat.add_zero]
      exact ⟨hid, ⟨js, hjs, hpw, hlt⟩, hreg⟩
    · cases hb : current.browser with
      | none =>
        unfold Execute at hstep
        simp [hname, hb] at hstep
      | some b =>
        cases arguments with
        | nil =>
          rw [Execute_no_arguments name current b elapsed st hname hb] at hstep
          cases hstep
          have hadv : (Action.execute name [] current elapsed).advances = true := by
            simp [Action.advances, hname]
          simp only [hadv, ↓reduceIte]
          refine ⟨?_, ⟨js, ?_, hpw, fun j hj => Nat.lt_succ_of_lt (hlt j hj)⟩, ?_⟩
          · simp only [hid, wrapInt32_succ]; push_cast; rfl
          · simpa only [allocatedIds_append, List.getElem?_nil, List.append_nil] using hjs
          · intro k e hk
            obtain ⟨j, hj, hkj⟩ := hreg k e hk
            exact ⟨j, Nat.lt_succ_of_lt hj, hkj⟩
        | cons a0 rest =>
          by_cases hf : a0.IsFunction = true
          · rw [Execute_with_callback name a0 rest current b elapsed st hname hf hb] at hstep
            cases hstep
            have hadv : (Action.execute name (a0 :: rest) current elapsed).advances = true := by
              simp [Action.advances, hname, hf]
            simp only [hadv, ↓reduceIte]
            have hslot0 : (Execute.loop (a0 :: rest) 1 [CefValue.int st.messageId])[0]?
                = some (CefValue.int st.messageId) :=
              (Execute_loop_slots (a0 :: rest) _ 1 [CefValue.int st.messageId] rfl
                (by simp)).1 0 (by simp)
            refine ⟨?_, ⟨js ++ [n], ?_, ?_, ?_⟩, ?_⟩
            · simp only [hid, wrapInt32_succ]; push_cast; rfl
            · simp only [allocatedIds_append, hslot0]
              simp only [hjs, hid, List.map_append, List.map_cons, List.map_nil]
            · rw [List.pairwise_append]
              refine ⟨hpw, by simp, ?_⟩
              intro x hx y hy
              simp only [List.mem_singleton] at hy
              subst hy
              exact hlt x hx
            · intro j hj
              rcases List.mem_append.mp hj with h | h
              · exact Nat.lt_succ_of_lt (hlt j h)
              · simp only [List.mem_singleton] at h
                omega
            · intro k e hk
              simp only at hk
              by_cases hkid : k = st.messageId
              · exact ⟨n, Nat.lt_succ_self n, by rw [hkid, hid]⟩
              · rw [CallbackMap.find_assign_ne _ _ _ _ hkid] at hk
                obtain ⟨j, hj, hkj⟩ := hreg k e hk
                exact ⟨j, Nat.lt_succ_of_lt hj, hkj⟩
          · have hf' : a0.IsFunction = false := by simpa using hf
            rw [Execute_without_callback name a0 rest current b elapsed st hname hf' hb] at hstep
            cases hstep
            have hadv : (Action.execute name (a0 :: rest) current elapsed).advances = false := by
              simp [Action.advances, hf']
            simp only [hadv, Bool.false_eq_true, ↓reduceIte, Nat.add_zero]
            exact ⟨hid, ⟨js, hjs, hpw, hlt⟩, hreg⟩

theorem dispatches_cons (a : Action) (rest : List Action) :
    dispatches (a :: rest) = (if a.advances = true then 1 else 0) + dispatches rest := by
  by_cases ha : a.advances = true
  · simp [dispatches, List.filter_cons, ha, Nat.add_comm]
  · simp [dispatches, List.filter_cons, ha]

theorem run_idTrace (actions : List Action) :
    ∀ (n : Nat) (st st1 : Renderer), IdTrace n st → run actions st = some st1 →
      IdTrace (n + dispatches actions) st1 := by
  induction actions with
  | nil =>
    intro n st st1 hinv hrun
    simp only [run, Option.some.injEq] at hrun
    subst hrun
    simpa [dispatches] using hinv
  | cons a rest ih =>
    intro n st st1 hinv hrun
    simp only [run] at hrun
    rw [dispatches_cons]
    cases hs : step a st with
    | none => simp [hs] at hrun
    | some st2 =>
      simp only [hs] at hrun
      have h3 := ih _ st2 st1 (step_idTrace n a st st2 hinv hs) hrun
      rwa [Nat.add_assoc] at h3

theorem initial_idTrace (delegates : List RenderDelegate) :
    IdTrace 0 (Renderer.initial delegates) := by
  refine ⟨by simp [Renderer.initial, wrapInt32], ⟨[], ?_, ?_, ?_⟩, ?_⟩
  · simp [Renderer.initial, allocatedIds]
  · simp
  · simp
  · simp [Renderer.initial, CallbackMap.find]

/-- C6, amended. Callback ids: in every state reached from the initial one by calls of
`Execute` and router steps that return, the ids written to slot 0 of the callback-bearing
messages are 32-bit integers; they are strictly increasing as long as at most `2 ^ 31` calls
have reached `messageId++`, pairwise distinct as long as at most `2 ^ 32` have, and the id
the next call would allocate is not a key of the registry as long as fewer than `2 ^ 32`
have. -/
theorem C6_ids_unique_below_wrap (delegates : List RenderDelegate) (actions : List Action)
    (st : Renderer) (hrun : run actions (Renderer.initial delegates) = some st) :
    (dispatches actions ≤ 2147483648 → (allocatedIds st.sent).Pairwise (· < ·)) ∧
    (dispatches actions ≤ 4294967296 → (allocatedIds st.sent).Nodup) ∧
    (∀ id ∈ allocatedIds st.sent, -2147483648 ≤ id ∧ id < 2147483648) ∧
    (dispatches actions < 4294967296 → st.callback_map_.find st.messageId = none) := by
  have hinv := run_idTrace actions 0 _ st (initial_idTrace delegates) hrun
  simp only [Nat.zero_add] at hinv
  obtain ⟨hid, ⟨js, hjs, hpw, hlt⟩, hreg⟩ := hinv
  refine ⟨?_, ?_, ?_, ?_⟩
  · intro hb
    rw [hjs, List.pairwise_map]
    exact hpw.imp_of_mem (fun {a b} _ hbm hab =>
      wrapInt32_lt_of_lt a b hab (by have := hlt b hbm; omega))
  · intro hb
    rw [hjs, List.Nodup, List.pairwise_map]
    exact hpw.imp_of_mem (fun {a b} _ hbm hab =>
      wrapInt32_ne_of_lt_nat a b hab (by have := hlt b hbm; omega))
  · intro id hmem
    rw [hjs, List.mem_map] at hmem
    obtain ⟨j, _, rfl⟩ := hmem
    exact wrapInt32_mem_range _
  · intro hb
    cases hf : st.callback_map_.find st.messageId with
    | none => rfl
    | some e =>
      exfalso
      obtain ⟨j, hj, hkj⟩ := hreg _ e hf
      rw [hid] at hkj
      exact wrapInt32_ne_of_lt_nat j (dispatches actions) hj hb hkj.symm


open AppShellExtensionHandler in
/-- One call with a callback, then `n = 2 ^ 32 - 1` calls without arguments: the counter is
back at 0, where the first entry is still registered. -/
theorem counter_after_full_wrap (n : Nat) (hn : n = 4294967295) :
    ∃ st : Renderer,
      run ([Action.execute "f" [.function 5] ⟨1, some 7⟩ ⟨0⟩]
          ++ List.replicate n (Action.execute "g" [] ⟨1, some 7⟩ ⟨0⟩))
        (Renderer.initial []) = some st ∧
      st.messageId = 0 ∧
      st.callback_map_.find 0 = some (some ⟨1, some 7⟩, some (.function 5)) ∧
      allocatedIds st.sent = [0] := by
  have hf : ("f" : String) ≠ "GetElapsedMilliseconds" := by decide
  have hg : ("g" : String) ≠ "GetElapsedMilliseconds" := by decide
  have hw1 : wrapInt32 (0 + 1) = 1 := by decide
  rw [run_append]
  simp only [run, step]
  rw [Execute_with_callback "f" (.function 5) [] ⟨1, some 7⟩ 7 ⟨0⟩ _ hf rfl rfl]
  simp only [Option.bind, Renderer.initial, hw1]
  rw [run_replicate_no_arguments_wrap "g" ⟨1, some 7⟩ 7 ⟨0⟩ hg rfl n _ (by simp) (by simp)]
  refine ⟨_, rfl, ?_, ?_, ?_⟩
  · subst hn
    decide
  · exact CallbackMap.find_assign_self _ _ _
  · simp only [allocatedIds_replicate, Execute_loop_single, List.nil_append]
    rfl

open AppShellExtensionHandler ClientApp in
/-- One call with a callback, the message that resolves it, `n = 2 ^ 32 - 1` calls without
arguments and one more call with a callback: id 0 is sent a second time, to a registry in
which it is no longer present. -/
theorem ids_after_resolved_wrap (n : Nat) (hn : n = 4294967295) :
    ∃ st : Renderer,
      run ([Action.execute "f" [.function 5] ⟨1, some 7⟩ ⟨0⟩,
            Action.receive .PID_BROWSER ⟨"invokeCallback", [CefValue.int 0]⟩]
          ++ List.replicate n (Action.execute "g" [] ⟨1, some 7⟩ ⟨0⟩)
          ++ [Action.execute "h" [.function 6] ⟨1, some 7⟩ ⟨0⟩])
        (Renderer.initial []) = some st ∧
      allocatedIds st.sent = [0, 0] := by
  have hf : ("f" : String) ≠ "GetElapsedMilliseconds" := by decide
  have hg : ("g" : String) ≠ "GetElapsedMilliseconds" := by decide
  have hh : ("h" : String) ≠ "GetElapsedMilliseconds" := by decide
  have hw1 : wrapInt32 (0 + 1) = 1 := by decide
  have hw : wrapInt32 (1 + (n : Int)) = 0 := by
    subst hn
    decide
  rw [run_append, run_append]
  simp only [run, step]
  rw [Execute_with_callback "f" (.function 5) [] ⟨1, some 7⟩ 7 ⟨0⟩ _ hf rfl rfl]
  simp only
  rw [invoke_registered _ _ ⟨1, some 7⟩ (.function 5) (by simp [Renderer.initial])
    (by simp [Renderer.initial, CefListValue.GetInt, CallbackMap.find_assign_self])]
  simp only [Option.bind, Renderer.initial, hw1]
  rw [run_replicate_no_arguments_wrap "g" ⟨1, some 7⟩ 7 ⟨0⟩ hg rfl n _ (by simp) (by simp)]
  simp only [hw]
  rw [Execute_with_callback "h" (.function 6) [] ⟨1, some 7⟩ 7 ⟨0⟩ _ hh rfl rfl]
  refine ⟨_, rfl, ?_⟩
  simp only [allocatedIds_append, allocatedIds_replicate, Execute_loop_single, List.nil_append]
  rfl

/-- C6, as stated, fails, and each bound of the amended statement is the largest one: after
`2 ^ 31 - 1` calls without arguments, two calls with a callback are given the ids
`2147483647` and `-2147483648`, which do not increase; a call with a callback, the message
that resolves it, `2 ^ 32 - 1` calls without arguments and another call with a callback
are both given the id `0`; and after a call with a callback and `2 ^ 32 - 1` calls without
arguments, the id the next call allocates, `0`, is a key of the registry. -/
theorem C6_ids_fail_after_wrap :
    (∃ st : Renderer,
      run (List.replicate 2147483647 (Action.execute "f" [] ⟨1, some 7⟩ ⟨0⟩)
          ++ [Action.execute "f" [.function 5] ⟨1, some 7⟩ ⟨0⟩,
              Action.execute "f" [.function 5] ⟨1, some 7⟩ ⟨0⟩])
        (Renderer.initial []) = some st ∧
      allocatedIds st.sent = [2147483647, -2147483648] ∧
      ¬ (allocatedIds st.sent).Pairwise (· < ·)) ∧
    (∃ st : Renderer,
      run ([Action.execute "f" [.function 5] ⟨1, some 7⟩ ⟨0⟩,
            Action.receive .PID_BROWSER ⟨"invokeCallback", [CefValue.int 0]⟩]
          ++ List.replicate 4294967295 (Action.execute "g" [] ⟨1, some 7⟩ ⟨0⟩)
          ++ [Action.execute "h" [.function 6] ⟨1, some 7⟩ ⟨0⟩])
        (Renderer.initial []) = some st ∧
      allocatedIds st.sent = [0, 0] ∧
      ¬ (allocatedIds st.sent).Nodup) ∧
    (∃ st : Renderer,
      run ([Action.execute "f" [.function 5] ⟨1, some 7⟩ ⟨0⟩]
          ++ List.replicate 4294967295 (Action.execute "g" [] ⟨1, some 7⟩ ⟨0⟩))
        (Renderer.initial []) = some st ∧
      st.messageId = 0 ∧
      st.callback_map_.find st.messageId ≠ none) := by
  refine ⟨?_, ?_, ?_⟩
  · obtain ⟨st, h1, h2⟩ := ids_after_wrap 2147483647 rfl
    refine ⟨st, h1, h2, ?_⟩
    rw [h2]
    decide
  · obtain ⟨st, h1, h2⟩ := ids_after_resolved_wrap 4294967295 rfl
    refine ⟨st, h1, h2, ?_⟩
    rw [h2]
    decide
  · obtain ⟨st, h1, h2, h3, _⟩ := counter_after_full_wrap 4294967295 rfl
    refine ⟨st, h1, h2, ?_⟩
    rw [h2, h3]
    simp

open AppShellExtensionHandler in
theorem C6_ids_unique_below_wrap_witness :
    ∃ st : Renderer,
      run [Action.execute "f" [.function 5] ⟨1, some 7⟩ ⟨0⟩,
           Action.execute "g" [.function 6, .int 1] ⟨1, some 7⟩ ⟨0⟩]
        (Renderer.initial []) = some st ∧
      (allocatedIds st.sent).Pairwise (· < ·) ∧
      (allocatedIds st.sent).Nodup ∧
      (∀ id ∈ allocatedIds st.sent, -2147483648 ≤ id ∧ id < 2147483648) ∧
      st.callback_map_.find st.messageId = none := by
  have hrun : ∃ st : Renderer,
      run [Action.execute "f" [.function 5] ⟨1, some 7⟩ ⟨0⟩,
           Action.execute "g" [.function 6, .int 1] ⟨1, some 7⟩ ⟨0⟩]
        (Renderer.initial []) = some st := by
    simp only [run, step]
    rw [Execute_with_callback "f" (.function 5) [] ⟨1, some 7⟩ 7 ⟨0⟩ _ (by decide) rfl rfl]
    simp only
    rw [Execute_with_callback "g" (.function 6) [.int 1] ⟨1, some 7⟩ 7 ⟨0⟩ _ (by decide) rfl rfl]
    exact ⟨_, rfl⟩
  obtain ⟨st, h⟩ := hrun
  obtain ⟨h1, h2, h3, h4⟩ := C6_ids_unique_below_wrap [] _ st h
  exact ⟨st, h, h1 (by decide), h2 (by decide), h3, h4 (by decide)⟩

/-! ## Lifetime of a pending entry, for a run of any length -/

namespace AppShellExtensionHandler

end AppShellExtensionHandler

namespace ClientApp

theorem delegatesCalls_handled (it : List RenderDelegate) (k : Nat)
    (message : CefProcessMessage) (trace : List Event) (calls : List Call) :
    OnProcessMessageRecieved.delegatesCalls it k message true trace calls
      = (true, trace, calls) := by
  cases it <;> simp [OnProcessMessageRecieved.delegatesCalls]

/-- The delegate loop with calls runs as the delegate loop does and records its offers. -/
theorem delegatesCalls_eq (it : List RenderDelegate) (message : CefProcessMessage) :
    ∀ (k : Nat) (trace : List Event) (calls : List Call),
      OnProcessMessageRecieved.delegatesCalls it k message false trace calls
        = (decide (it.findIdx (handles message) < it.length),
           trace ++ (List.range' k (min (it.findIdx (handles message) + 1) it.length)).map
             (fun j => Event.offer j message),
           calls ++ ((List.range' k (min (it.findIdx (handles message) + 1) it.length)).map
             (fun j => Event.offer j message)).map Call.event) := by
  induction it with
  | nil => intro k trace calls; simp [OnProcessMessageRecieved.delegatesCalls]
  | cons d rest ih =>
    intro k trace calls
    rw [OnProcessMessageRecieved.delegatesCalls]
    simp only [↓reduceIte, List.findIdx_cons, List.length_cons]
    by_cases hd : d.OnProcessMessageRecieved message = true
    · have hh : handles message d = true := hd
      simp [hd, hh, delegatesCalls_handled, List.range']
    · have hd' : d.OnProcessMessageRecieved message = false := by simpa using hd
      have hh : handles message d = false := hd'
      rw [hd', ih]
      simp only [hh, cond_false, Nat.add_lt_add_iff_right, Nat.add_min_add_right,
        List.range'_succ, List.map_cons, List.append_assoc, List.singleton_append]

theorem delegatesCalls_zero (it : List RenderDelegate) (message : CefProcessMessage)
    (trace : List Event) (calls : List Call) :
    OnProcessMessageRecieved.delegatesCalls it 0 message false trace calls
      = (decide (it.findIdx (handles message) < it.length),
         trace ++ offers message (offeredCount it message),
         calls ++ (offers message (offeredCount it message)).map Call.event) := by
  rw [delegatesCalls_eq, offers, offeredCount, List.range_eq_range']

/-- The argument loop with calls converts as the argument loop does and records one call of
`ListValueToV8Value` per slot, in the order of the slots. -/
theorem loopCalls_eq (messageArgs : CefListValue) :
    ∀ (k i : Nat) (arguments : List CefV8Value) (calls : List Call),
      k = messageArgs.GetSize - i →
      OnProcessMessageRecieved.loopCalls messageArgs i arguments calls
        = (arguments ++ (List.range' i (messageArgs.GetSize - i)).map
              (ListToV8.ListValueToV8Value messageArgs),
           calls ++ (List.range' i (messageArgs.GetSize - i)).map
              (fun j => Call.convert j (ListToV8.ListValueToV8Value messageArgs j))) := by
  intro k
  induction k with
  | zero =>
    intro i arguments calls hk
    rw [OnProcessMessageRecieved.loopCalls]
    have : ¬ i < messageArgs.GetSize := by omega
    simp [this, ← hk]
  | succ k ih =>
    intro i arguments calls hk
    rw [OnProcessMessageRecieved.loopCalls]
    have : i < messageArgs.GetSize := by omega
    simp only [this, ↓reduceIte]
    rw [ih (i + 1) _ _ (by omega), ← hk]
    have : messageArgs.GetSize - (i + 1) = k := by omega
    simp [this, List.range'_succ]

/-- The router with calls is the router: it ends in the same outcome and state. -/
theorem router_calls_outcome (source_process : CefProcessId) (message : CefProcessMessage)
    (st : Renderer) :
    (OnProcessMessageRecievedCalls source_process message st).1
      = OnProcessMessageRecieved source_process message st := by
  unfold OnProcessMessageRecievedCalls OnProcessMessageRecieved
  simp only [delegatesCalls_zero, delegates_zero,
    loopCalls_eq message.GetArgumentList _ 1 [] _ rfl,
    loop_eq message.GetArgumentList _ 1 [] rfl]
  split
  · rfl
  · split
    · split
      · split
        · rfl
        · split <;> rfl
      · rfl
    · rfl

/-- The calls of the built-in path on a registered id. -/
theorem invoke_registered_calls (st : Renderer) (args : CefListValue) (ctx : CefV8Context)
    (f : CefV8Value)
    (hnone : ∀ d ∈ st.render_delegates_,
      d.OnProcessMessageRecieved ⟨"invokeCallback", args⟩ = false)
    (hfind : st.callback_map_.find (args.GetInt 0) = some (some ctx, some f)) :
    (OnProcessMessageRecievedCalls .PID_BROWSER ⟨"invokeCallback", args⟩ st).2
      = (offers ⟨"invokeCallback", args⟩ st.render_delegates_.length).map Call.event
        ++ [Call.event (Event.enter ctx)]
        ++ (List.range' 1 (args.GetSize - 1)).map
            (fun j => Call.convert j (ListToV8.ListValueToV8Value args j))
        ++ [Call.event (Event.executeFunction f
              ((List.range' 1 (args.GetSize - 1)).map (ListToV8.ListValueToV8Value args))),
            Call.event (Event.exit ctx)] := by
  have h : st.render_delegates_.findIdx (handles ⟨"invokeCallback", args⟩)
      = st.render_delegates_.length :=
    List.findIdx_eq_length_of_false (fun d hd => hnone d hd)
  unfold OnProcessMessageRecievedCalls
  simp only [ne_eq, not_true_eq_false, ↓reduceIte, delegatesCalls_zero, offeredCount, h,
    CefProcessMessage.GetName, CefProcessMessage.GetArgumentList,
    CallbackMap.index_of_find _ _ _ hfind, loopCalls_eq args _ 1 [] _ rfl]
  simp

/-- What a router step appends to the trace and which calls it makes, on a registry without
null references. -/
theorem router_calls (source_process : CefProcessId) (message : CefProcessMessage)
    (st : Renderer) (hwf : RegistryComplete st) :
    ∃ pre core : List Event,
      (OnProcessMessageRecieved source_process message st).state.trace
        = st.trace ++ pre ++ core ∧
      (∀ e ∈ pre, e.isOffer = true) ∧
      ((core = [] ∧
          (OnProcessMessageRecievedCalls source_process message st).2 = pre.map Call.event) ∨
        ∃ (ctx : CefV8Context) (f : CefV8Value),
          core = [Event.enter ctx,
            Event.executeFunction f
              ((List.range' 1 (message.GetArgumentList.GetSize - 1)).map
                (ListToV8.ListValueToV8Value message.GetArgumentList)),
            Event.exit ctx] ∧
          (OnProcessMessageRecievedCalls source_process message st).2
            = pre.map Call.event ++ [Call.event (Event.enter ctx)]
              ++ (List.range' 1 (message.GetArgumentList.GetSize - 1)).map
                  (fun j => Call.convert j
                    (ListToV8.ListValueToV8Value message.GetArgumentList j))
              ++ [Call.event (Event.executeFunction f
                    ((List.range' 1 (message.GetArgumentList.GetSize - 1)).map
                      (ListToV8.ListValueToV8Value message.GetArgumentList))),
                  Call.event (Event.exit ctx)]) := by
  by_cases hsrc : source_process = CefProcessId.PID_BROWSER
  · subst hsrc
    by_cases hsome : ∃ d ∈ st.render_delegates_, d.OnProcessMessageRecieved message = true
    · have h : st.render_delegates_.findIdx (handles message) < st.render_delegates_.length :=
        List.findIdx_lt_length_of_exists hsome
      rw [handled_by_delegate st message hsome]
      refine ⟨offers message (st.render_delegates_.findIdx (handles message) + 1), [],
        by simp [Outcome.state], offers_isOffer _ _, Or.inl ⟨rfl, ?_⟩⟩
      unfold OnProcessMessageRecievedCalls
      simp only [ne_eq, not_true_eq_false, ↓reduceIte, delegatesCalls_zero, offeredCount]
      simp [h, Nat.min_eq_left (Nat.succ_le_of_lt h)]
    · have hnone : ∀ d ∈ st.render_delegates_, d.OnProcessMessageRecieved message = false := by
        intro d hd
        by_contra hc
        exact hsome ⟨d, hd, by simpa using hc⟩
      have h : st.render_delegates_.findIdx (handles message) = st.render_delegates_.length :=
        List.findIdx_eq_length_of_false (fun d hd => hnone d hd)
      by_cases hname : message.name = "invokeCallback"
      · obtain ⟨name, args⟩ := message
        simp only at hname
        subst hname
        cases hfind : st.callback_map_.find (CefListValue.GetInt args 0) with
        | none =>
          rw [invoke_unregistered st args hnone hfind]
          refine ⟨offers ⟨"invokeCallback", args⟩ st.render_delegates_.length, [],
            by simp [Outcome.state], offers_isOffer _ _, Or.inl ⟨rfl, ?_⟩⟩
          unfold OnProcessMessageRecievedCalls
          simp only [ne_eq, not_true_eq_false, ↓reduceIte, delegatesCalls_zero, offeredCount, h,
            CefProcessMessage.GetName, CefProcessMessage.GetArgumentList, CallbackMap.index,
            hfind]
          simp
        | some e =>
          obtain ⟨c, f, rfl⟩ := hwf _ e hfind
          rw [invoke_registered st args c f hnone hfind]
          refine ⟨offers ⟨"invokeCallback", args⟩ st.render_delegates_.length, _, rfl,
            offers_isOffer _ _, Or.inr ⟨c, f, rfl, ?_⟩⟩
          exact invoke_registered_calls st args c f hnone hfind
      · rw [other_name st message hnone hname]
        refine ⟨offers message st.render_delegates_.length, [],
          by simp [Outcome.state], offers_isOffer _ _, Or.inl ⟨rfl, ?_⟩⟩
        unfold OnProcessMessageRecievedCalls
        simp only [ne_eq, not_true_eq_false, ↓reduceIte, delegatesCalls_zero, offeredCount, h,
          CefProcessMessage.GetName, hname]
        simp
  · unfold OnProcessMessageRecieved OnProcessMessageRecievedCalls
    simp only [ne_eq, hsrc, not_false_eq_true, ↓reduceIte]
    exact ⟨[], [], by simp [Outcome.state], by simp, Or.inl ⟨rfl, rfl⟩⟩

end ClientApp

open ClientApp in
/-- C18. Context re-entry is paired: in every state reached from the initial one, a router
step makes these calls on the engine, in this order: the offers to the delegates, and then
either nothing more or exactly this: `Enter` on `ctx`, one call of `ListValueToV8Value` for
each of the slots 1.., in the order of the slots, `ExecuteFunction` on the callback with the
values those calls created, `Exit` on the same `ctx`; the events among these calls are what
the step appends to the trace, so it enters and exits equally often, at most once, and the
invocation and every conversion lie between the `Enter` and the `Exit`; and after any
sequence of calls and router steps that return, the depth of the context stack is what it
was before. -/
theorem C18_context_reentry_paired (delegates : List RenderDelegate) (history : List Action)
    (st : Renderer) (hreach : run history (Renderer.initial delegates) = some st) :
    (∀ (source_process : CefProcessId) (message : CefProcessMessage),
      (OnProcessMessageRecievedCalls source_process message st).1
        = OnProcessMessageRecieved source_process message st ∧
      ∃ pre core : List Event,
        (OnProcessMessageRecieved source_process message st).state.trace
          = st.trace ++ pre ++ core ∧
        (∀ e ∈ pre, e.isOffer = true) ∧
        ((core = [] ∧
            (OnProcessMessageRecievedCalls source_process message st).2
              = pre.map Call.event) ∨
          ∃ (ctx : CefV8Context) (f : CefV8Value),
            core = [Event.enter ctx,
              Event.executeFunction f
                ((List.range' 1 (message.GetArgumentList.GetSize - 1)).map
                  (ListToV8.ListValueToV8Value message.GetArgumentList)),
              Event.exit ctx] ∧
            (OnProcessMessageRecievedCalls source_process message st).2
              = pre.map Call.event ++ [Call.event (Event.enter ctx)]
                ++ (List.range' 1 (message.GetArgumentList.GetSize - 1)).map
                    (fun j => Call.convert j
                      (ListToV8.ListValueToV8Value message.GetArgumentList j))
                ++ [Call.event (Event.executeFunction f
                      ((List.range' 1 (message.GetArgumentList.GetSize - 1)).map
                        (ListToV8.ListValueToV8Value message.GetArgumentList))),
                    Call.event (Event.exit ctx)]) ∧
        enters (pre ++ core) = exits (pre ++ core) ∧
        enters (pre ++ core) ≤ 1) ∧
    ∀ (actions : List Action) (st1 : Renderer), run actions st = some st1 →
      contextDepth st1.trace = contextDepth st.trace := by
  have hwf := run_registryComplete history _ st (initial_registryComplete delegates) hreach
  refine ⟨?_, fun actions st1 hrun => run_contextDepth actions st st1 hwf hrun⟩
  intro source_process message
  refine ⟨router_calls_outcome source_process message st, ?_⟩
  obtain ⟨pre, core, htrace, hpre, hcore⟩ := router_calls source_process message st hwf
  refine ⟨pre, core, htrace, hpre, hcore, ?_, ?_⟩
  · rw [enters_append, exits_append, enters_of_offers pre hpre, exits_of_offers pre hpre]
    rcases hcore with ⟨rfl, _⟩ | ⟨ctx, f, rfl, _⟩
    · simp [enters, exits]
    · simp [enters, exits, Event.isEnter, Event.isExit]
  · rw [enters_append, enters_of_offers pre hpre]
    rcases hcore with ⟨rfl, _⟩ | ⟨ctx, f, rfl, _⟩
    · simp [enters]
    · simp [enters, Event.isEnter]

open AppShellExtensionHandler ClientApp in
theorem C18_context_reentry_paired_witness :
    ∃ st : Renderer,
      run [Action.execute "f" [.function 5] ⟨1, some 7⟩ ⟨0⟩] (Renderer.initial []) = some st ∧
      (OnProcessMessageRecievedCalls .PID_BROWSER
          ⟨"invokeCallback", [CefValue.int 0, CefValue.int 5, CefValue.string "a"]⟩ st).2
        = [Call.event (Event.enter ⟨1, some 7⟩),
           Call.convert 1 (.int 5),
           Call.convert 2 (.string "a"),
           Call.event (Event.executeFunction (.function 5) [.int 5, .string "a"]),
           Call.event (Event.exit ⟨1, some 7⟩)] ∧
      (OnProcessMessageRecievedCalls .PID_BROWSER
          ⟨"invokeCallback", [CefValue.int 0, CefValue.int 5, CefValue.string "a"]⟩ st).1
        = OnProcessMessageRecieved .PID_BROWSER
          ⟨"invokeCallback", [CefValue.int 0, CefValue.int 5, CefValue.string "a"]⟩ st ∧
      ∀ (actions : List Action) (st1 : Renderer), run actions st = some st1 →
        contextDepth st1.trace = contextDepth st.trace := by
  have hrun : ∃ st : Renderer,
      run [Action.execute "f" [.function 5] ⟨1, some 7⟩ ⟨0⟩] (Renderer.initial [])
        = some st ∧
      st.render_delegates_ = [] ∧
      st.callback_map_.find 0 = some (some ⟨1, some 7⟩, some (.function 5)) := by
    simp only [run, step]
    rw [Execute_with_callback "f" (.function 5) [] ⟨1, some 7⟩ 7 ⟨0⟩ _ (by decide) rfl rfl]
    exact ⟨_, rfl, rfl, CallbackMap.find_assign_self _ _ _⟩
  obtain ⟨st, h, hds, hfind⟩ := hrun
  have hall := C18_context_reentry_paired [] _ st h
  refine ⟨st, h, ?_, (hall.1 .PID_BROWSER _).1, hall.2⟩
  rw [invoke_registered_calls st _ ⟨1, some 7⟩ (.function 5) (by simp [hds])
    (by simpa [CefListValue.GetInt] using hfind)]
  simp [hds, offers, CefListValue.GetSize, List.range', ListToV8.ListValueToV8Value_eq,
    ListToV8.ofSlotAt, ListToV8.ofSlot]

end AppShell
